import Mathlib

/-!
Verification of the performer name-sync / duplicate-merge engine
(`performer_name_sync.py`).

The Python program is shallowly embedded: each Python helper becomes an
executable Lean definition over explicit data types; the Stash server and
the two external registries (JavStash = "registry A", StashDB =
"registry B") are modelled as explicit state values and response
functions.  Python dictionaries with a fixed field set become structures
with `Option` fields (`none` = the JSON `null` / missing key); dynamic
update payloads become ordered association lists of `(fieldName, value)`
pairs, mirroring Python's insertion-ordered dicts.
-/

namespace PNS

/-! ## Python string semantics -/

/-- Characters matched by Python's regex `\s` (and stripped by
`str.strip()`): ASCII whitespace, the C1 separators, and the Unicode
whitespace code points. -/
def pyIsSpace (c : Char) : Bool :=
  c = ' ' || c = '\t' || c = '\n' || c.val = 0x0b || c.val = 0x0c || c = '\r' ||
  c.val = 0x1c || c.val = 0x1d || c.val = 0x1e || c.val = 0x1f ||
  c.val = 0x85 || c.val = 0xa0 || c.val = 0x1680 ||
  (0x2000 ≤ c.val && c.val ≤ 0x200a) ||
  c.val = 0x2028 || c.val = 0x2029 || c.val = 0x202f || c.val = 0x205f ||
  c.val = 0x3000

/-- `str.strip()` on the underlying character list. -/
def pyStripList (l : List Char) : List Char :=
  ((l.dropWhile pyIsSpace).reverse.dropWhile pyIsSpace).reverse

/-- Python `str.strip()`. -/
def pyStrip (s : String) : String :=
  String.mk (pyStripList s.data)

/-- Python `str.lower()` restricted to ASCII letters (all concrete strings
in this development are ASCII). -/
def asciiLower (s : String) : String :=
  String.mk (s.data.map Char.toLower)

/-- Python `str.upper()` restricted to ASCII letters. -/
def asciiUpper (s : String) : String :=
  String.mk (s.data.map Char.toUpper)

/-- The normalisation `x.strip().lower()` used throughout the program for
case-insensitive comparison. -/
def normKey (s : String) : String :=
  asciiLower (pyStrip s)

/-- Python `str.rstrip()` (strip trailing whitespace). -/
def pyRstrip (s : String) : String :=
  String.mk ((s.data.reverse.dropWhile pyIsSpace).reverse)

/-- Python `str.rstrip(c)` for a single character `c`. -/
def pyRstripChar (c : Char) (s : String) : String :=
  String.mk ((s.data.reverse.dropWhile (· = c)).reverse)

/-- Whether `needle` occurs in `hay` (Python's `in` on strings), as a
scan over the character lists. -/
def listHasPrefix : List Char → List Char → Bool
  | [], _ => true
  | _ :: _, [] => false
  | a :: as, b :: bs => a = b && listHasPrefix as bs

def listContainsSub (needle : List Char) : List Char → Bool
  | [] => listHasPrefix needle []
  | c :: cs => listHasPrefix needle (c :: cs) || listContainsSub needle cs

def strContains (hay needle : String) : Bool :=
  listContainsSub needle.data hay.data

/-- Python `str.split(sep)` for a single-character separator. -/
def splitCharAux (sep : Char) : List Char → List Char → List String
  | [], cur => [String.mk cur.reverse]
  | c :: cs, cur =>
    if c = sep then String.mk cur.reverse :: splitCharAux sep cs []
    else splitCharAux sep cs (c :: cur)

def pySplit (sep : Char) (s : String) : List String :=
  splitCharAux sep s.data []

/-- Python `sep.join(parts)`. -/
def joinSep (sep : String) : List String → String
  | [] => ""
  | [x] => x
  | x :: y :: xs => x ++ sep ++ joinSep sep (y :: xs)

def strEndsWith (s suffix : String) : Bool :=
  listHasPrefix suffix.data.reverse s.data.reverse

def strDropRight (s : String) (n : Nat) : String :=
  String.mk (s.data.take (s.data.length - n))

/-! ## Latin-character detection (`is_latin`, lines 28-31) -/

/-- The character class of `LATIN_RE`:
`^[A-Za-z0-9\s\-\'.,()&!?]+$`. -/
def latinAllowedChar (c : Char) : Bool :=
  ('A' ≤ c && c ≤ 'Z') || ('a' ≤ c && c ≤ 'z') || ('0' ≤ c && c ≤ '9') ||
  pyIsSpace c || c = '-' || c.val = 39 || c = '.' || c = ',' ||
  c = '(' || c = ')' || c = '&' || c = '!' || c = '?'

/-- `is_latin(name)`: `bool(name and LATIN_RE.match(name.strip()))`.
The regex is fully anchored, so it holds iff the stripped string is
non-empty and every character is in the class. -/
def is_latin (name : String) : Bool :=
  name ≠ "" && (pyStrip name ≠ "" && (pyStrip name).data.all latinAllowedChar)

/-- Modelled from the spec (§4.1): the allowed character set as the claim
words it, with the literal space character only (not the whole `\s`
whitespace class that the code's regex uses). -/
def specAllowedChar (c : Char) : Bool :=
  ('A' ≤ c && c ≤ 'Z') || ('a' ≤ c && c ≤ 'z') || ('0' ≤ c && c ≤ '9') ||
  c = ' ' || c = '-' || c.val = 39 || c = '.' || c = ',' ||
  c = '(' || c = ')' || c = '&' || c = '!' || c = '?'

/-! ## Endpoint helpers (lines 220-233) -/

/-- `norm_endpoint(u)`: rstrip `/`, drop a trailing `/graphql`, rstrip `/`
again, lowercase. -/
def norm_endpoint (u : String) : String :=
  let u := pyRstripChar '/' u
  let u := if strEndsWith u "/graphql" then strDropRight u "/graphql".data.length else u
  asciiLower (pyRstripChar '/' u)

def endpoint_matches (a b : String) : Bool :=
  norm_endpoint a = norm_endpoint b

/-! ## Data model

Local performers carry the full field set of `ALL_PERFORMERS_QUERY`
(lines 181-209); scalar fields are `Option String` (`none` = JSON null),
numeric fields `Option Int`, and the three list fields plain lists (the
code always reads them as `p.get(k) or []`). -/

structure StashID where
  endpoint : String
  stash_id : String
deriving Repr, DecidableEq

structure Performer where
  id : String
  name : Option String := none
  disambiguation : Option String := none
  gender : Option String := none
  birthdate : Option String := none
  ethnicity : Option String := none
  country : Option String := none
  eye_color : Option String := none
  hair_color : Option String := none
  height_cm : Option Int := none
  weight : Option Int := none
  measurements : Option String := none
  fake_tits : Option String := none
  career_length : Option String := none
  tattoos : Option String := none
  piercings : Option String := none
  url : Option String := none
  details : Option String := none
  alias_list : List String := []
  urls : List String := []
  stash_ids : List StashID := []
deriving Repr, DecidableEq

/-- A content entity (scene, gallery or image): an id plus its performer
id list, as returned by the `find*ByPerformer` queries. -/
structure Content where
  id : String
  performers : List String
deriving Repr, DecidableEq

/-- The local Stash server's state, as far as this plugin reads and
writes it. -/
structure ServerState where
  performers : List Performer
  scenes : List Content := []
  galleries : List Content := []
  images : List Content := []
deriving Repr, DecidableEq

/-- A configured stash-box (`getConfiguredRegistryEndpoints` entry). -/
structure Box where
  endpoint : String
  api_key : String := ""
  name : String := ""
deriving Repr, DecidableEq

/-- Summary record returned by `FIND_PERFORMER_QUERY` on JavStash. -/
structure JavPerformer where
  name : Option String := none
  aliases : List String := []
deriving Repr, DecidableEq

/-- Summary record returned by StashDB's `searchPerformer`. -/
structure SBEntry where
  id : String
  name : String := ""
  aliases : List String := []
deriving Repr, DecidableEq

/-- A `{location, description}` tattoo/piercing entry. -/
structure BodyMod where
  location : Option String := none
  description : Option String := none
deriving Repr, DecidableEq

/-- A `{url, type}` URL entry. -/
structure SBUrl where
  url : Option String := none
  type : Option String := none
deriving Repr, DecidableEq

/-- Full profile returned by `FIND_PERFORMER_FULL_QUERY` on StashDB. -/
structure SBFull where
  name : String := ""
  disambiguation : Option String := none
  aliases : List String := []
  gender : Option String := none
  birth_date : Option String := none
  ethnicity : Option String := none
  country : Option String := none
  eye_color : Option String := none
  hair_color : Option String := none
  height : Option Int := none
  cup_size : Option String := none
  band_size : Option Int := none
  waist_size : Option Int := none
  hip_size : Option Int := none
  breast_type : Option String := none
  career_start_year : Option Int := none
  career_end_year : Option Int := none
  tattoos : List BodyMod := []
  piercings : List BodyMod := []
  urls : List SBUrl := []
deriving Repr, DecidableEq

/-- The fixed responses of the two external registries for one run:
JavStash find-by-id, StashDB search-by-term, StashDB full find-by-id. -/
structure Registries where
  javFind : String → Option JavPerformer
  sbSearch : String → List SBEntry
  sbFull : String → Option SBFull

/-- Values a dynamic update-payload dict can hold. -/
inductive Val where
  | vs : String → Val
  | vi : Int → Val
  | vls : List String → Val
  | vsids : List StashID → Val
deriving Repr, DecidableEq

/-- An insertion-ordered Python dict used as an update payload. -/
abbrev Payload := List (String × Val)

/-- Keys present in a payload. -/
def payloadKeys (u : Payload) : List String := u.map Prod.fst

/-- Look up a payload field (first binding; keys are unique by
construction). -/
def payloadGet (u : Payload) (k : String) : Option Val :=
  (u.find? (fun kv => kv.1 = k)).map Prod.snd

/-! ## Emptiness tests (`_is_empty`, lines 297-302) -/

/-- `_is_empty` on a string-or-null value. -/
def isEmptyS : Option String → Bool
  | none => true
  | some s => pyStrip s = ""

/-- `_is_empty` on an int-or-null value (an int is never "empty"). -/
def isEmptyI : Option Int → Bool
  | none => true
  | some _ => false

/-! ## Body-mod formatting and merging (lines 304-337) -/

/-- `_format_body_mod`: format entries as `"location: description"` (or
the non-missing half) and comma-join. -/
def _format_body_mod (mods : List BodyMod) : String :=
  let parts := mods.foldl (fun parts m =>
    let loc := pyStrip (m.location.getD "")
    let desc := pyStrip (m.description.getD "")
    if loc ≠ "" && desc ≠ "" then parts ++ [loc ++ ": " ++ desc]
    else if loc ≠ "" then parts ++ [loc]
    else if desc ≠ "" then parts ++ [desc]
    else parts) []
  joinSep ", " parts

/-- The comma-separated segments of a local multi-value field, stripped
and lowercased, dropping blank segments (the `existing` set). -/
def segKeys (v : String) : List String :=
  ((pySplit ',' v).map (fun e => asciiLower (pyStrip e))).filter (fun e => e ≠ "")

/-- `_merge_body_mods`: append-unique merge of StashDB entries into the
local comma-separated string.  Returns `""` when there is nothing to
change. -/
def _merge_body_mods (stashdb_mods : List BodyMod) (local_value : Option String) : String :=
  let stashdb_str := _format_body_mod stashdb_mods
  if stashdb_str = "" then ""
  else if isEmptyS local_value then stashdb_str
  else
    let lv := local_value.getD ""
    let step := fun (acc : List String × List String) (part : String) =>
      let p := pyStrip part
      if p ≠ "" && !(acc.1.contains (asciiLower p)) then
        (acc.1 ++ [asciiLower p], acc.2 ++ [p])
      else acc
    let new_parts := ((pySplit ',' stashdb_str).foldl step (segKeys lv, [])).2
    if new_parts ≠ [] then
      pyRstripChar ',' (pyRstrip lv) ++ ", " ++ joinSep ", " new_parts
    else ""

/-! ## Alias / URL merging (lines 339-377) -/

/-- `merge_aliases`: StashDB aliases not already present (case-insensitive)
among the local aliases, the current name or the new name. -/
def merge_aliases (stashdb_aliases local_aliases : List String)
    (current_name new_name : String) : List String :=
  if stashdb_aliases = [] then []
  else
    let existing := local_aliases.map normKey
    let existing := if current_name ≠ "" then existing ++ [normKey current_name] else existing
    let existing := if new_name ≠ "" then existing ++ [normKey new_name] else existing
    let step := fun (acc : List String × List String) (al : String) =>
      let a := pyStrip al
      if a ≠ "" && !(acc.1.contains (asciiLower a)) then
        (acc.1 ++ [asciiLower a], acc.2 ++ [a])
      else acc
    (stashdb_aliases.foldl step (existing, [])).2

/-- The trailing-slash-insensitive, case-insensitive key of a URL. -/
def urlKey (u : String) : String :=
  asciiLower (pyRstripChar '/' (pyStrip u))

/-- `merge_urls`: StashDB URL entries not already present in the local
singular `url` or plural `urls`. -/
def merge_urls (stashdb_urls : List SBUrl) (local_performer : Performer) : List String :=
  if stashdb_urls = [] then []
  else
    let locals :=
      (if pyStrip (local_performer.url.getD "") ≠ ""
       then [asciiLower (pyRstripChar '/' (pyStrip (local_performer.url.getD "")))]
       else []) ++
      local_performer.urls.map urlKey
    let step := fun (acc : List String × List String) (entry : SBUrl) =>
      let url := pyStrip (entry.url.getD "")
      if url ≠ "" && !(acc.1.contains (urlKey url)) then
        (acc.1 ++ [urlKey url], acc.2 ++ [url])
      else acc
    (stashdb_urls.foldl step (locals, [])).2

/-! ## Enrichment (`build_enrichment`, lines 379-479) -/

/-- A conditional singleton payload entry. -/
def pif (cond : Bool) (k : String) (v : Val) : Payload :=
  if cond then [(k, v)] else []

/-- `build_enrichment(stashdb_p, local_p)`: field-level fills from the
StashDB full profile.  Scalars fill only when the local value is empty;
tattoos/piercings are append-unique merges; `url` fills from the HOME
entry or the first entry. -/
def build_enrichment (sp : SBFull) (lp : Performer) : Payload :=
  pif (isEmptyS lp.disambiguation && pyStrip (sp.disambiguation.getD "") ≠ "")
    "disambiguation" (.vs (pyStrip (sp.disambiguation.getD ""))) ++
  pif (isEmptyS lp.gender && sp.gender.getD "" ≠ "")
    "gender" (.vs (sp.gender.getD "")) ++
  pif (isEmptyS lp.birthdate && pyStrip (sp.birth_date.getD "") ≠ "" && sp.birth_date.getD "" ≠ "")
    "birthdate" (.vs (pyStrip (sp.birth_date.getD ""))) ++
  pif (isEmptyS lp.ethnicity && sp.ethnicity.getD "" ≠ "")
    "ethnicity" (.vs (sp.ethnicity.getD "")) ++
  pif (isEmptyS lp.country && pyStrip (sp.country.getD "") ≠ "")
    "country" (.vs (pyStrip (sp.country.getD ""))) ++
  pif (isEmptyS lp.eye_color && sp.eye_color.getD "" ≠ "")
    "eye_color" (.vs (sp.eye_color.getD "")) ++
  pif (isEmptyS lp.hair_color && sp.hair_color.getD "" ≠ "")
    "hair_color" (.vs (sp.hair_color.getD "")) ++
  pif (isEmptyI lp.height_cm && sp.height.getD 0 ≠ 0)
    "height_cm" (.vi (sp.height.getD 0)) ++
  (let band := sp.band_size.getD 0
   let cup := pyStrip (sp.cup_size.getD "")
   let waist := sp.waist_size.getD 0
   let hip := sp.hip_size.getD 0
   pif (isEmptyS lp.measurements && band ≠ 0 && cup ≠ "")
     "measurements" (.vs (joinSep "-"
       ([toString band ++ cup] ++ (if waist ≠ 0 then [toString waist] else []) ++
        (if hip ≠ 0 then [toString hip] else []))))) ++
  (let bt := asciiUpper (sp.breast_type.getD "")
   pif (isEmptyS lp.fake_tits && (bt = "FAKE" || bt = "AUGMENTED"))
     "fake_tits" (.vs "Yes") ++
   pif (isEmptyS lp.fake_tits && bt = "NATURAL")
     "fake_tits" (.vs "No")) ++
  (let start := sp.career_start_year.getD 0
   let stop := sp.career_end_year.getD 0
   pif (isEmptyS lp.career_length && start ≠ 0)
     "career_length" (.vs (if stop ≠ 0 then toString start ++ "-" ++ toString stop
                           else toString start))) ++
  (let tm := _merge_body_mods sp.tattoos lp.tattoos
   pif (tm ≠ "") "tattoos" (.vs tm)) ++
  (let pm := _merge_body_mods sp.piercings lp.piercings
   pif (pm ≠ "") "piercings" (.vs pm)) ++
  (let chosen := match sp.urls.find? (fun u => asciiUpper (u.type.getD "") = "HOME") with
                 | some u => u.url.getD ""
                 | none => ""
   let chosen := if chosen = "" then
                   match sp.urls with
                   | [] => ""
                   | u :: _ => u.url.getD ""
                 else chosen
   pif (isEmptyS lp.url && chosen ≠ "") "url" (.vs chosen))

/-! ## Alias dedup (`dedup_aliases`, lines 481-489) -/

def dedupAliasesAux (seen : List String) : List String → List String
  | [] => []
  | a :: rest =>
    let key := normKey a
    if key ≠ "" && !(seen.contains key) then a :: dedupAliasesAux (key :: seen) rest
    else dedupAliasesAux seen rest

/-- `dedup_aliases`: keep the first alias for each non-blank
trimmed-lowercased key, dropping blanks and later case-duplicates. -/
def dedup_aliases (alias_list : List String) : List String :=
  dedupAliasesAux [] alias_list

/-! ## Completeness score and keeper pick (lines 494-511) -/

/-- `_count_filled_fields`: number of non-empty fields among the fixed
scalar/text set, plus the alias, URL and stash-id list lengths. -/
def _count_filled_fields (p : Performer) : Nat :=
  (if isEmptyS p.name then 0 else 1) +
  (if isEmptyS p.disambiguation then 0 else 1) +
  (if isEmptyS p.gender then 0 else 1) +
  (if isEmptyS p.birthdate then 0 else 1) +
  (if isEmptyS p.ethnicity then 0 else 1) +
  (if isEmptyS p.country then 0 else 1) +
  (if isEmptyS p.eye_color then 0 else 1) +
  (if isEmptyS p.hair_color then 0 else 1) +
  (if isEmptyI p.height_cm then 0 else 1) +
  (if isEmptyI p.weight then 0 else 1) +
  (if isEmptyS p.measurements then 0 else 1) +
  (if isEmptyS p.fake_tits then 0 else 1) +
  (if isEmptyS p.career_length then 0 else 1) +
  (if isEmptyS p.tattoos then 0 else 1) +
  (if isEmptyS p.piercings then 0 else 1) +
  (if isEmptyS p.url then 0 else 1) +
  (if isEmptyS p.details then 0 else 1) +
  p.alias_list.length + p.urls.length + p.stash_ids.length

/-- `_pick_keeper`: Python's `max(performers, key=_count_filled_fields)`,
which returns the FIRST element attaining the maximum. -/
def _pick_keeper : List Performer → Option Performer
  | [] => none
  | p :: ps => some (ps.foldl
      (fun best x => if _count_filled_fields x > _count_filled_fields best then x else best) p)

/-! ## Metadata merge (`_merge_performer_metadata`, lines 514-598) -/

def sidKey (s : StashID) : String × String :=
  (norm_endpoint s.endpoint, s.stash_id)

/-- One step of the seen-set/append-unique folds used for aliases and
multi-value segments: strip, skip blanks and already-seen lowercase keys. -/
def appendUniqueStep (acc : List String × List String) (part : String) :
    List String × List String :=
  let p := pyStrip part
  if p ≠ "" && !(acc.1.contains (asciiLower p)) then
    (acc.1 ++ [asciiLower p], acc.2 ++ [p])
  else acc

/-- The tattoos/piercings merge inside `_merge_performer_metadata`
(lines 567-584): `some v` = the field is written with `v`. -/
def mergeModField (keeperV dupeV : Option String) : Option String :=
  let kv := pyStrip (keeperV.getD "")
  let dv := pyStrip (dupeV.getD "")
  if dv ≠ "" && kv = "" then some dv
  else if dv ≠ "" && kv ≠ "" then
    let new_parts := ((pySplit ',' dv).foldl appendUniqueStep (segKeys kv, [])).2
    if new_parts ≠ [] then
      some (pyRstripChar ',' (pyRstrip kv) ++ ", " ++ joinSep ", " new_parts)
    else none
  else none

/-- One step of the stash-id union fold: keep the first id for each
`(normalizedEndpoint, stash_id)` key. -/
def sidStep (acc : List (String × String) × List StashID) (sid : StashID) :
    List (String × String) × List StashID :=
  if !(acc.1.contains (sidKey sid)) then
    (acc.1 ++ [sidKey sid], acc.2 ++ [StashID.mk sid.endpoint sid.stash_id])
  else acc

/-- One step of the URL append-unique fold (raw entry kept, key is
strip+rstrip-slash+lower). -/
def urlStep (acc : List String × List String) (u : String) : List String × List String :=
  if !(acc.1.contains (urlKey u)) then (acc.1 ++ [urlKey u], acc.2 ++ [u])
  else acc

/-- `_merge_performer_metadata(keeper, dupe)`: the update payload folding
the dupe's fields into the keeper, and whether anything changed. -/
def _merge_performer_metadata (keeper dupe : Performer) : Payload × Bool :=
  let dupe_name := pyStrip (dupe.name.getD "")
  let keeper_name := pyStrip (keeper.name.getD "")
  -- dupe's name appended as an alias when different and not present verbatim
  let nameAdd := dupe_name ≠ "" && asciiLower dupe_name ≠ asciiLower keeper_name &&
                 !(keeper.alias_list.contains dupe_name)
  let new_aliases := if nameAdd then keeper.alias_list ++ [dupe_name] else keeper.alias_list
  -- dupe's aliases appended when unseen (case-insensitive, keeper name included)
  let existing0 := new_aliases.map normKey ++ [asciiLower keeper_name]
  let added := (dupe.alias_list.foldl appendUniqueStep (existing0, [])).2
  let new_aliases := new_aliases ++ added
  -- stash-id union keyed by (normalized endpoint, stash_id)
  let (seen1, merged1) := keeper.stash_ids.foldl sidStep ([], [])
  let merged_sids := (dupe.stash_ids.foldl sidStep (seen1, merged1)).2
  let sidsChanged := merged_sids.length ≠ merged1.length
  -- scalar fields: fill empty on keeper from dupe
  let scalarFills : Payload :=
    pif (isEmptyS keeper.disambiguation && !isEmptyS dupe.disambiguation)
      "disambiguation" (.vs (dupe.disambiguation.getD "")) ++
    pif (isEmptyS keeper.gender && !isEmptyS dupe.gender)
      "gender" (.vs (dupe.gender.getD "")) ++
    pif (isEmptyS keeper.birthdate && !isEmptyS dupe.birthdate)
      "birthdate" (.vs (dupe.birthdate.getD "")) ++
    pif (isEmptyS keeper.ethnicity && !isEmptyS dupe.ethnicity)
      "ethnicity" (.vs (dupe.ethnicity.getD "")) ++
    pif (isEmptyS keeper.country && !isEmptyS dupe.country)
      "country" (.vs (dupe.country.getD "")) ++
    pif (isEmptyS keeper.eye_color && !isEmptyS dupe.eye_color)
      "eye_color" (.vs (dupe.eye_color.getD "")) ++
    pif (isEmptyS keeper.hair_color && !isEmptyS dupe.hair_color)
      "hair_color" (.vs (dupe.hair_color.getD "")) ++
    pif (isEmptyI keeper.height_cm && !isEmptyI dupe.height_cm)
      "height_cm" (.vi (dupe.height_cm.getD 0)) ++
    pif (isEmptyI keeper.weight && !isEmptyI dupe.weight)
      "weight" (.vi (dupe.weight.getD 0)) ++
    pif (isEmptyS keeper.measurements && !isEmptyS dupe.measurements)
      "measurements" (.vs (dupe.measurements.getD "")) ++
    pif (isEmptyS keeper.fake_tits && !isEmptyS dupe.fake_tits)
      "fake_tits" (.vs (dupe.fake_tits.getD "")) ++
    pif (isEmptyS keeper.career_length && !isEmptyS dupe.career_length)
      "career_length" (.vs (dupe.career_length.getD "")) ++
    pif (isEmptyS keeper.details && !isEmptyS dupe.details)
      "details" (.vs (dupe.details.getD "")) ++
    pif (isEmptyS keeper.url && !isEmptyS dupe.url)
      "url" (.vs (dupe.url.getD ""))
  -- tattoos and piercings: append-unique string merge
  let tat := mergeModField keeper.tattoos dupe.tattoos
  let pie := mergeModField keeper.piercings dupe.piercings
  -- URLs: append-unique
  let new_urls := (dupe.urls.foldl urlStep (keeper.urls.map urlKey, [])).2
  let changed := nameAdd || !added.isEmpty || sidsChanged || !scalarFills.isEmpty ||
                 tat.isSome || pie.isSome || !new_urls.isEmpty
  let payload : Payload :=
    [("id", .vs keeper.id),
     ("alias_list", .vls (dedup_aliases new_aliases)),
     ("stash_ids", .vsids merged_sids)] ++
    scalarFills ++
    (match tat with | some v => [("tattoos", .vs v)] | none => []) ++
    (match pie with | some v => [("piercings", .vs v)] | none => []) ++
    (if !new_urls.isEmpty then [("urls", .vls (keeper.urls ++ new_urls))] else [])
  (payload, changed)

/-- Applying one payload field to a performer dict (`keeper[k] = v`, and
the server's `performerUpdate`). -/
def setField (p : Performer) (kv : String × Val) : Performer :=
  match kv with
  | ("id", .vs v) => { p with id := v }
  | ("name", .vs v) => { p with name := some v }
  | ("disambiguation", .vs v) => { p with disambiguation := some v }
  | ("gender", .vs v) => { p with gender := some v }
  | ("birthdate", .vs v) => { p with birthdate := some v }
  | ("ethnicity", .vs v) => { p with ethnicity := some v }
  | ("country", .vs v) => { p with country := some v }
  | ("eye_color", .vs v) => { p with eye_color := some v }
  | ("hair_color", .vs v) => { p with hair_color := some v }
  | ("height_cm", .vi v) => { p with height_cm := some v }
  | ("weight", .vi v) => { p with weight := some v }
  | ("measurements", .vs v) => { p with measurements := some v }
  | ("fake_tits", .vs v) => { p with fake_tits := some v }
  | ("career_length", .vs v) => { p with career_length := some v }
  | ("tattoos", .vs v) => { p with tattoos := some v }
  | ("piercings", .vs v) => { p with piercings := some v }
  | ("url", .vs v) => { p with url := some v }
  | ("details", .vs v) => { p with details := some v }
  | ("alias_list", .vls v) => { p with alias_list := v }
  | ("urls", .vls v) => { p with urls := v }
  | ("stash_ids", .vsids v) => { p with stash_ids := v }
  | _ => p

/-- Applying a whole payload (`for k, v in payload.items(): keeper[k] = v`). -/
def applyPayload (p : Performer) (u : Payload) : Performer :=
  u.foldl setField p

/-! ## StashDB search (`search_stashdb`, lines 254-275) -/

/-- Whether one search-result entry matches the term: its name or any
alias equals the term case-insensitively after trimming. -/
def entryHit (target : String) (p : SBEntry) : Bool :=
  normKey p.name = target || p.aliases.any (fun al => normKey al = target)

/-- `search_stashdb`: the first entry matching by name-or-alias yields
`(name, id)`; no data / no results / no exact match yield `None`. -/
def search_stashdb (term : String) (results : List SBEntry) : Option (String × String) :=
  let target := normKey term
  results.findSome? (fun p => if entryHit target p then some (p.name, p.id) else none)

/-- The candidate loop of `process_performer` (lines 888-899), with the
list of terms actually queried recorded.  Mirrors the Python `for`/`break`:
the loop leaves `(stashdb_name, stashdb_pid)` holding the last assignment,
and an empty returned name does NOT break the loop. -/
def searchLoopT (f : String → List SBEntry) :
    List String → (Option String × Option String) × List String
  | [] => ((none, none), [])
  | t :: ts =>
    match search_stashdb t (f t) with
    | some (n, i) =>
      if n ≠ "" then ((some n, some i), [t])
      else
        match ts with
        | [] => ((some n, some i), [t])
        | _ :: _ => let r := searchLoopT f ts; (r.1, t :: r.2)
    | none => let r := searchLoopT f ts; (r.1, t :: r.2)

/-! ## Candidate building (lines 858-875) -/

/-- One alias step of candidate building: strip, keep Latin unseen terms. -/
def candStep (acc : List String × List String) (al : String) : List String × List String :=
  let a := pyStrip al
  if a ≠ "" && is_latin a && !(acc.2.contains (asciiLower a)) then
    (acc.1 ++ [a], acc.2 ++ [asciiLower a])
  else acc

/-- Candidates from JavStash data only (aliases in order, then primary
name), with the running seen-term key set. -/
def javCands (javAliases : List String) (javName : String) :
    List String × List String :=
  let acc := javAliases.foldl candStep ([], [])
  if javName ≠ "" && is_latin javName && !(acc.2.contains (normKey javName)) then
    (acc.1 ++ [pyStrip javName], acc.2 ++ [normKey javName])
  else acc

/-- The full ordered candidate list: JavStash Latin aliases, JavStash
primary name, then the current local name, de-duplicated by
trimmed-lowercase key. -/
def buildCandidates (javAliases : List String) (javName currentName : String) :
    List String :=
  let acc := javCands javAliases javName
  if currentName ≠ "" && is_latin currentName && !(acc.2.contains (normKey currentName)) then
    acc.1 ++ [pyStrip currentName]
  else acc.1

/-! ## Per-record sync (`process_performer`, lines 821-993) -/

inductive SyncResult where
  | payload : Payload → SyncResult
  | updated : SyncResult
  | skip : SyncResult
  | skipMulti : SyncResult
  | skipNoAlias : SyncResult
  | skipNoChange : SyncResult
  | error : SyncResult
deriving Repr, DecidableEq

/-- `process_performer`: resolve candidates, match against StashDB, build
the combined name/alias/link/enrichment update.  Returns the payload in
live mode ('updated' in dry-run), or a skip/error status. -/
def process_performer (performer : Performer) (javBox : Box) (sbBox : Option Box)
    (reg : Registries) (dry_run : Bool) : SyncResult :=
  let current_name := performer.name.getD ""
  let current_aliases := performer.alias_list
  let existing_stash_ids := performer.stash_ids
  match existing_stash_ids.find? (fun s => endpoint_matches s.endpoint javBox.endpoint) with
  | none => .skip
  | some javSid =>
    if javSid.stash_id = "" then .skip
    else if existing_stash_ids.length > 1 then .skipMulti
    else
      match reg.javFind javSid.stash_id with
      | none => .error
      | some jp =>
        match buildCandidates jp.aliases (jp.name.getD "") current_name with
        | [] => .skipNoAlias
        | best_latin :: rest =>
          let candidates := best_latin :: rest
          let sr := match sbBox with
                    | some _ => (searchLoopT reg.sbSearch candidates).1
                    | none => (none, none)
          let stashdb_name := sr.1
          let stashdb_pid := sr.2
          let stashdb_full := match stashdb_pid with
                              | some pid => reg.sbFull pid
                              | none => none
          let new_name := match stashdb_name with
                          | some n => if n ≠ "" then n else best_latin
                          | none => best_latin
          let name_changed := normKey new_name ≠ normKey current_name
          let ua := if current_name ≠ "" && !(current_aliases.contains current_name)
                    then current_aliases ++ [current_name] else current_aliases
          let ua := ua.filter (fun a => normKey a ≠ normKey new_name)
          let alias_merge := match stashdb_full with
                             | some f => merge_aliases f.aliases ua current_name new_name
                             | none => []
          let updated_aliases := dedup_aliases (ua ++ alias_merge)
          let base_sids := existing_stash_ids.map (fun s => StashID.mk s.endpoint s.stash_id)
          let linkInfo :=
            match stashdb_pid, sbBox with
            | some pid, some box =>
              if base_sids.any (fun s => endpoint_matches s.endpoint box.endpoint)
              then (base_sids, false)
              else (base_sids ++ [StashID.mk box.endpoint pid], true)
            | _, _ => (base_sids, false)
          let updated_sids := linkInfo.1
          let stashdb_linked := linkInfo.2
          let enrichment := match stashdb_full with
                            | some f => build_enrichment f performer
                            | none => []
          let url_merge := match stashdb_full with
                           | some f => merge_urls f.urls performer
                           | none => []
          if !name_changed && !stashdb_linked && enrichment.isEmpty &&
             alias_merge.isEmpty && url_merge.isEmpty then .skipNoChange
          else
            let u : Payload :=
              [("id", .vs performer.id), ("name", .vs new_name),
               ("alias_list", .vls updated_aliases),
               ("stash_ids", .vsids updated_sids)] ++
              enrichment ++
              (if !url_merge.isEmpty
               then [("urls", .vls (performer.urls ++ url_merge))] else [])
            if dry_run then .updated else .payload u

/-! ## Stash-box identification (`identify_stashboxes`, lines 238-249) -/

/-- Scan the configured boxes; the LAST box whose endpoint or name
contains "javstash" (resp. "stashdb", checked `elif`) wins. -/
def identify_stashboxes (boxes : List Box) : Option Box × Option Box :=
  boxes.foldl (fun acc box =>
    let ep := asciiLower box.endpoint
    let nm := asciiLower box.name
    if strContains ep "javstash" || strContains nm "javstash" then (some box, acc.2)
    else if strContains ep "stashdb" || strContains nm "stashdb" then (acc.1, some box)
    else acc) (none, none)

/-! ## Server-side mutations

The plugin holds the fetched performer dicts (`mem`) and mutates the
server through GraphQL.  `updatePerformer` writes a payload both to the
in-memory keeper dict and to the server row; `performerDestroy` removes
the server row only (the fetched dict stays in `mem`, masked by the
`deleted_ids` set). -/

def serverUpdatePerformer (st : ServerState) (u : Payload) (pid : String) : ServerState :=
  { st with performers := st.performers.map (fun q => if q.id = pid then applyPayload q u else q) }

def serverDestroyPerformer (st : ServerState) (pid : String) : ServerState :=
  { st with performers := st.performers.filter (fun q => q.id ≠ pid) }

/-- Resolve a fetched performer dict by id (ids are unique on the
server, so this is the object reference). -/
def lookupP (mem : List Performer) (i : String) : Performer :=
  (mem.find? (fun p => p.id = i)).getD { id := i }

/-- Mutating the in-memory dict with a given id. -/
def updateMem (mem : List Performer) (p : Performer) : List Performer :=
  mem.map (fun q => if q.id = p.id then p else q)

/-! ## Content reassignment (`_reassign_content`, lines 601-666) -/

/-- The `new_ids` loop: replace the dupe id by the keeper id, keeping
each id at most once. -/
def rewriteIds (perf_ids : List String) (dupe keeper : String) : List String :=
  perf_ids.foldl (fun acc pid =>
    if pid = dupe then (if acc.contains keeper then acc else acc ++ [keeper])
    else (if acc.contains pid then acc else acc ++ [pid])) []

/-- Python's `set(new_ids) != set(perf_ids)` update guard. -/
def sameSet (a b : List String) : Bool :=
  a.all (b.contains ·) && b.all (a.contains ·)

/-- Reassign one content kind: query the entities referencing the dupe,
rewrite each one's performer list (skipping the server write in dry-run,
but still counting). -/
def reassignKind (contents : List Content) (dupe keeper : String) (dry : Bool) :
    List Content × Nat :=
  let matching := contents.filter (fun c => c.performers.contains dupe)
  matching.foldl (fun acc c =>
    let new_ids := rewriteIds c.performers dupe keeper
    if !sameSet new_ids c.performers then
      ((if dry then acc.1
        else acc.1.map (fun c2 => if c2.id = c.id then { c2 with performers := new_ids } else c2)),
       acc.2 + 1)
    else acc) (contents, 0)

/-- `_reassign_content`: scenes, then galleries, then images. -/
def _reassign_content (st : ServerState) (dupe keeper : String) (dry : Bool) :
    ServerState × (Nat × Nat × Nat) :=
  let sc := reassignKind st.scenes dupe keeper dry
  let ga := reassignKind st.galleries dupe keeper dry
  let im := reassignKind st.images dupe keeper dry
  ({ st with scenes := sc.1, galleries := ga.1, images := im.1 }, (sc.2, ga.2, im.2))

/-! ## Group merge (`_merge_duplicate_group`, lines 669-713) -/

/-- Processing one non-keeper: merge metadata into the keeper (applied to
the server row and mirrored into the in-memory dict, live mode only),
reassign content, delete the dupe (live mode only). -/
def mergeDupeStep (dry : Bool) (keeperId : String)
    (acc : List Performer × ServerState) (d : String) : List Performer × ServerState :=
  let mem := acc.1
  let st := acc.2
  let keeper := lookupP mem keeperId
  let dupe := lookupP mem d
  let pc := _merge_performer_metadata keeper dupe
  let mem2 := if pc.2 && !dry then updateMem mem (applyPayload keeper pc.1) else mem
  let st2 := if pc.2 && !dry then serverUpdatePerformer st pc.1 keeperId else st
  let st3 := (_reassign_content st2 d keeperId dry).1
  let st4 := if !dry then serverDestroyPerformer st3 d else st3
  (mem2, st4)

/-- `_merge_duplicate_group`: pick the keeper, fold every dupe in order.
Returns the new in-memory list and server state, the keeper id, and the
number of dupes processed. -/
def _merge_duplicate_group (mem : List Performer) (st : ServerState)
    (group : List String) (dry : Bool) :
    (List Performer × ServerState) × Option String × Nat :=
  if group.length < 2 then ((mem, st), none, 0)
  else
    match _pick_keeper (group.map (lookupP mem)) with
    | none => ((mem, st), none, 0)
    | some keeper0 =>
      let keeperId := keeper0.id
      let dupes := group.filter (fun i => i ≠ keeperId)
      (dupes.foldl (mergeDupeStep dry keeperId) (mem, st), some keeperId, dupes.length)

/-! ## Duplicate detection (`find_and_merge_duplicates`, lines 716-815) -/

/-- Insertion-ordered dict-of-lists bucket append (`setdefault(k, []).append(p)`). -/
def addBucket {κ : Type} [DecidableEq κ] (bs : List (κ × List String)) (k : κ)
    (pid : String) : List (κ × List String) :=
  if bs.any (fun b => b.1 = k) then
    bs.map (fun b => if b.1 = k then (b.1, b.2 ++ [pid]) else b)
  else bs ++ [(k, [pid])]

/-- Phase 1 buckets: `(normalized endpoint, stash_id)` over every link of
every performer (blank stash_ids skipped). -/
def sidBuckets (mem : List Performer) : List ((String × String) × List String) :=
  mem.foldl (fun bs p =>
    p.stash_ids.foldl (fun bs sid =>
      if sid.stash_id ≠ "" then addBucket bs (norm_endpoint sid.endpoint, sid.stash_id) p.id
      else bs) bs) []

/-- Phase 2 buckets: trimmed-lowercase primary name over non-deleted
performers. -/
def nameBuckets (mem : List Performer) (deleted : List String) :
    List (String × List String) :=
  mem.foldl (fun bs p =>
    if deleted.contains p.id then bs
    else
      let nk := normKey (p.name.getD "")
      if nk ≠ "" then addBucket bs nk p.id else bs) []

/-- Phase 3 name index over surviving performers. -/
def nameIndex (surviving : List Performer) : List (String × List String) :=
  surviving.foldl (fun bs p =>
    let nk := normKey (p.name.getD "")
    if nk ≠ "" then addBucket bs nk p.id else bs) []

def indexGet (ix : List (String × List String)) (k : String) : Option (List String) :=
  (ix.find? (fun b => b.1 = k)).map Prod.snd

/-- Python's `<` on strings: lexicographic comparison of code points. -/
def listCharLt : List Char → List Char → Bool
  | [], [] => false
  | [], _ :: _ => true
  | _ :: _, [] => false
  | a :: as, b :: bs => a.val < b.val || (a.val = b.val && listCharLt as bs)

def strLt (a b : String) : Bool :=
  listCharLt a.data b.data

/-- `tuple(sorted([a, b]))` on two distinct id strings. -/
def sortPair (a b : String) : String × String :=
  if strLt a b then (a, b) else (b, a)

/-- Phase 3 pair collection: every (performer alias, other performer's
name) hit, de-duplicated by unordered id pair, self-pairs excluded. -/
def aliasPairs (surviving : List Performer) (ix : List (String × List String)) :
    List (String × String) :=
  (surviving.foldl (fun (acc : List (String × String) × List (String × String)) p =>
    p.alias_list.foldl (fun acc al =>
      let ak := normKey al
      if ak ≠ "" then
        match indexGet ix ak with
        | some ms =>
          ms.foldl (fun acc m =>
            if m ≠ p.id then
              let pk := sortPair p.id m
              if !(acc.1.contains pk) then (acc.1 ++ [pk], acc.2 ++ [(p.id, m)])
              else acc
            else acc) acc
        | none => acc
      else acc) acc) ([], [])).2

structure DupStats where
  groups_found : Nat := 0
  duplicates_merged : Nat := 0
deriving Repr, DecidableEq

/-- The running state of one dedup pass: in-memory dicts, server state,
the already-deleted id set, stats, and the trace of processed groups
(each recorded with its post-filter member ids, paired with the ids it
absorbed, i.e. marked deleted). -/
structure PassState where
  mem : List Performer
  st : ServerState
  deleted : List String
  stats : DupStats
  trace : List (List String × List String)
deriving Repr, DecidableEq

/-- The caller-side deleted-id tracking after a group merge: re-pick the
keeper from the (possibly mutated) dicts; every other group member id is
recorded as deleted. -/
def absorbedIds (mem : List Performer) (g : List String) : List String :=
  match _pick_keeper (g.map (lookupP mem)) with
  | some k => g.filter (fun i => i ≠ k.id)
  | none => []

/-- Processing one candidate group: drop already-deleted members, skip
groups smaller than 2, merge, then mark every non-keeper id deleted
(the keeper is re-picked from the post-merge dicts, as the code does). -/
def processGroup (dry : Bool) (ps : PassState) (gids : List String) : PassState :=
  let g := gids.filter (fun i => !(ps.deleted.contains i))
  if g.length < 2 then ps
  else
    let r := _merge_duplicate_group ps.mem ps.st g dry
    let newDeleted := absorbedIds r.1.1 g
    { mem := r.1.1, st := r.1.2,
      deleted := ps.deleted ++ newDeleted,
      stats := { groups_found := ps.stats.groups_found + 1,
                 duplicates_merged := ps.stats.duplicates_merged + r.2.2 },
      trace := ps.trace ++ [(g, newDeleted)] }

/-- `find_and_merge_duplicates`: the three grouping phases, threading the
already-deleted id set through all of them. -/
def find_and_merge_duplicates (mem : List Performer) (st : ServerState) (dry : Bool) :
    PassState :=
  let ps0 : PassState := { mem := mem, st := st, deleted := [], stats := {}, trace := [] }
  let ps1 := (sidBuckets mem).foldl (fun ps b => processGroup dry ps b.2) ps0
  let ps2 := (nameBuckets ps1.mem ps1.deleted).foldl (fun ps b => processGroup dry ps b.2) ps1
  let surviving := ps2.mem.filter (fun p => !(ps2.deleted.contains p.id))
  let pairs := aliasPairs surviving (nameIndex surviving)
  pairs.foldl (fun ps pr => processGroup dry ps [pr.1, pr.2]) ps2

/-! ## Pipeline orchestrator (`process`, lines 999-1110, and `main`) -/

structure RunStats where
  updated : Nat := 0
  skipped_multi : Nat := 0
  skipped_no_alias : Nat := 0
  skipped_no_change : Nat := 0
  errors : Nat := 0
deriving Repr, DecidableEq

structure ProcessResult where
  ok : Bool
  fetched : Bool
  preStats : DupStats := {}
  syncStats : RunStats := {}
  postStats : DupStats := {}
  state : ServerState
deriving Repr, DecidableEq

/-- One iteration of the main sync loop: execute the returned payload
against the server (live mode) and bump the matching counter. -/
def syncStep (javBox : Box) (sbBox : Option Box) (reg : Registries) (dry : Bool)
    (acc : ServerState × RunStats) (performer : Performer) : ServerState × RunStats :=
  let st := acc.1
  let stats := acc.2
  match process_performer performer javBox sbBox reg dry with
  | .payload u => (serverUpdatePerformer st u performer.id,
                   { stats with updated := stats.updated + 1 })
  | .updated => (st, { stats with updated := stats.updated + 1 })
  | .skipMulti => (st, { stats with skipped_multi := stats.skipped_multi + 1 })
  | .skipNoAlias => (st, { stats with skipped_no_alias := stats.skipped_no_alias + 1 })
  | .skipNoChange => (st, { stats with skipped_no_change := stats.skipped_no_change + 1 })
  | .error => (st, { stats with errors := stats.errors + 1 })
  | .skip => (st, stats)

/-- `process`: identify boxes (halting before the performer fetch when no
JavStash box is configured), fetch, pre-sync dedup pass, per-record sync
over the performers holding a JavStash link, re-fetch, post-sync dedup
pass. -/
def process (cfg : List Box) (reg : Registries) (st : ServerState) (dry : Bool) :
    ProcessResult :=
  let boxes := identify_stashboxes cfg
  match boxes.1 with
  | none => { ok := false, fetched := false, state := st }
  | some javBox =>
    let performers := st.performers
    let pre := find_and_merge_duplicates performers st dry
    let candidates := pre.mem.filter (fun p =>
      !(pre.deleted.contains p.id) &&
      p.stash_ids.any (fun sid => endpoint_matches sid.endpoint javBox.endpoint))
    let sync := candidates.foldl (syncStep javBox boxes.2 reg dry) (pre.st, {})
    let post := find_and_merge_duplicates sync.1.performers sync.1 dry
    { ok := true, fetched := true, preStats := pre.stats, syncStats := sync.2,
      postStats := post.stats, state := post.st }

/-- `main`: run `process` and print `{"output": "ok"}` — the reported
host status is "ok" on every path through `process`, including the
missing-JavStash early exit. -/
def pyMain (cfg : List Box) (reg : Registries) (st : ServerState) (dry : Bool) :
    ProcessResult × String :=
  (process cfg reg st dry, "ok")

/-! ## Spec-modelled counting for association conservation (C3)

These two definitions follow the spec's words ("the total count of
distinct (association, performer) pairs referencing any member of a
merged group" / "the count referencing the keeper"), to be compared with
what the code computes. -/

/-- Distinct `(association, performer)` pairs whose performer is a group
member, for one content kind. -/
def assocPairCount (cs : List Content) (g : List String) : Nat :=
  (cs.map (fun c => (g.filter (fun m => c.performers.contains m)).length)).sum

/-- Distinct `(association, keeper)` pairs, for one content kind. -/
def keeperPairCount (cs : List Content) (kid : String) : Nat :=
  (cs.filter (fun c => c.performers.contains kid)).length

end PNS

namespace PNS

/-! # Theorems -/

set_option maxRecDepth 1000000

/-! ## Generic payload lemmas -/

theorem payloadKeys_append (u v : Payload) :
    payloadKeys (u ++ v) = payloadKeys u ++ payloadKeys v := by
  simp [payloadKeys]

theorem mem_payloadKeys_pif {k' : String} {c : Bool} {k : String} {v : Val} :
    k' ∈ payloadKeys (pif c k v) ↔ (c = true ∧ k' = k) := by
  unfold pif payloadKeys
  split <;> simp_all

theorem mem_pif {x : String × Val} {c : Bool} {k : String} {v : Val} :
    x ∈ pif c k v ↔ (c = true ∧ x = (k, v)) := by
  unfold pif; split <;> simp_all

theorem mem_modMatch {x : String × Val} (o : Option String) (k : String) :
    (x ∈ (match o with | some v => [(k, Val.vs v)] | none => [])) ↔
    (∃ w, o = some w ∧ x = (k, Val.vs w)) := by
  cases o <;> simp

/-- A fold whose step never changes the first component leaves it fixed. -/
theorem foldl_preserves_fst {σ γ : Type} (f : σ × Nat → γ → σ × Nat)
    (hf : ∀ acc c, (f acc c).1 = acc.1) (ms : List γ) (acc : σ × Nat) :
    (ms.foldl f acc).1 = acc.1 := by
  induction ms generalizing acc with
  | nil => rfl
  | cons c ms ih => rw [List.foldl_cons, ih, hf]

/-! ## C7: the Latin-script classifier -/

/-- C7 (counterexample): the claim's allowed set has only the literal
space character, but the code's regex class contains `\s`, so
`"a\tb"` — which contains a tab, outside the claimed set — is
classified as Latin.  The claimed iff fails at `"a\tb"`. -/
theorem C7_counterexample : ¬ (is_latin "a\tb" = true ↔
    (pyStrip "a\tb" ≠ "" ∧ ∀ c ∈ (pyStrip "a\tb").data, specAllowedChar c = true)) := by
  decide

/-- C7 (amended): `is_latin` returns true iff, after trimming, the string
is non-empty and every character is a letter, digit, `\s` whitespace
character, or one of the fixed punctuation marks; empty and
whitespace-only input yield false. -/
theorem C7_is_latin_amended (s : String) : is_latin s = true ↔
    (pyStrip s ≠ "" ∧ ∀ c ∈ (pyStrip s).data, latinAllowedChar c = true) := by
  constructor
  · intro h
    simp only [is_latin, Bool.and_eq_true, decide_eq_true_eq, ne_eq, List.all_eq_true] at h
    exact ⟨h.2.1, h.2.2⟩
  · rintro ⟨h1, h2⟩
    have hs : s ≠ "" := by
      intro he; apply h1; rw [he]; rfl
    simp only [is_latin, Bool.and_eq_true, decide_eq_true_eq, ne_eq, List.all_eq_true]
    exact ⟨hs, h1, h2⟩

/-! ## C6: the `details` field -/

def c6keeper : Performer := { id := "K6", name := some "k" }
def c6dupe : Performer := { id := "D6", name := some "d", details := some "some free text" }

/-- C6 (counterexample): the merge payload CAN carry a `details` key —
the scalar fill loop of `_merge_performer_metadata` includes `details`,
so a keeper with empty details and a dupe with populated details yields a
payload containing `details`. -/
theorem C6_counterexample :
    "details" ∈ payloadKeys (_merge_performer_metadata c6keeper c6dupe).1 := by
  decide

/-- C6 (amended): the enrichment result never contains a `details` key
(details is never auto-filled from the registry), but the duplicate-merge
payload carries `details` exactly when the keeper's details is empty and
the non-keeper's is populated (fill-if-empty from the other local record,
never overwriting a populated value). -/
theorem C6_details_amended (sp : SBFull) (lp : Performer) (keeper dupe : Performer) :
    ("details" ∉ payloadKeys (build_enrichment sp lp)) ∧
    ("details" ∈ payloadKeys (_merge_performer_metadata keeper dupe).1 ↔
      (isEmptyS keeper.details = true ∧ isEmptyS dupe.details = false)) := by
  constructor
  · simp [build_enrichment, payloadKeys_append, mem_payloadKeys_pif]
  · simp [_merge_performer_metadata, payloadKeys, mem_pif, mem_modMatch,
      Bool.and_eq_true, Bool.not_eq_true']

/-! ## C5: dry-run vs live in-memory state -/

def c5keeper : Performer := { id := "K5", name := some "k", gender := some "M" }
def c5dupe : Performer := { id := "D5", name := some "d" }

/-- C5 (counterexample): after processing the first non-keeper of a
group, the in-memory keeper dict differs between dry-run and live mode —
dry-run skips the in-memory advance (the mirror write sits inside
`if changed and not dry_run`), so the claim that both modes hold
identical keepers is false. -/
theorem C5_counterexample :
    lookupP (_merge_duplicate_group [c5keeper, c5dupe]
      { performers := [c5keeper, c5dupe] } ["K5", "D5"] false).1.1 "K5" ≠
    lookupP (_merge_duplicate_group [c5keeper, c5dupe]
      { performers := [c5keeper, c5dupe] } ["K5", "D5"] true).1.1 "K5" := by
  decide

theorem reassignKind_dry (cs : List Content) (d k : String) :
    (reassignKind cs d k true).1 = cs := by
  unfold reassignKind
  exact foldl_preserves_fst _ (fun acc c => by dsimp only; split <;> rfl) _ _

theorem mergeDupeStep_dry (kid : String) (acc : List Performer × ServerState) (d : String) :
    mergeDupeStep true kid acc d = acc := by
  unfold mergeDupeStep _reassign_content
  simp [reassignKind_dry]

theorem mergeGroup_dry (mem : List Performer) (st : ServerState) (group : List String) :
    (_merge_duplicate_group mem st group true).1 = (mem, st) := by
  unfold _merge_duplicate_group
  split
  · rfl
  · split
    · rfl
    · simp only
      generalize (group.filter _) = dupes
      induction dupes with
      | nil => rfl
      | cons d ds ih => rw [List.foldl_cons, mergeDupeStep_dry]; exact ih

theorem processGroup_dry (ps : PassState) (gids : List String) :
    (processGroup true ps gids).mem = ps.mem ∧ (processGroup true ps gids).st = ps.st := by
  unfold processGroup
  simp only [mergeGroup_dry]
  split
  · exact ⟨rfl, rfl⟩
  · exact ⟨rfl, rfl⟩

theorem processGroups_fold_dry {α : Type} (f : α → List String) (xs : List α)
    (ps : PassState) :
    (xs.foldl (fun ps b => processGroup true ps (f b)) ps).mem = ps.mem ∧
    (xs.foldl (fun ps b => processGroup true ps (f b)) ps).st = ps.st := by
  induction xs generalizing ps with
  | nil => exact ⟨rfl, rfl⟩
  | cons x xs ih =>
    simp only [List.foldl_cons]
    have h := processGroup_dry ps (f x)
    have h2 := ih (processGroup true ps (f x))
    exact ⟨h2.1.trans h.1, h2.2.trans h.2⟩

/-- C5 (amended): in dry-run mode the writes AND the in-memory advance
are both skipped: a dry-run group merge returns the in-memory dicts and
the server state unchanged, and a whole dry-run dedup pass leaves both
untouched — so subsequent merge decisions within a dry-run group are made
against the original keeper and can differ from live mode. -/
theorem C5_dry_run_amended :
    (∀ mem st group, (_merge_duplicate_group mem st group true).1 = (mem, st)) ∧
    (∀ mem st, (find_and_merge_duplicates mem st true).mem = mem ∧
               (find_and_merge_duplicates mem st true).st = st) := by
  refine ⟨mergeGroup_dry, fun mem st => ?_⟩
  unfold find_and_merge_duplicates
  simp only
  exact ⟨(processGroups_fold_dry _ _ _).1.trans
           ((processGroups_fold_dry _ _ _).1.trans (processGroups_fold_dry _ _ _).1),
         (processGroups_fold_dry _ _ _).2.trans
           ((processGroups_fold_dry _ _ _).2.trans (processGroups_fold_dry _ _ _).2)⟩

/-! ## C9: keeper selection and dominance -/

def c9keeper : Performer := { id := "K9", name := some "k", alias_list := ["X", "x", "X ", "x  "] }
def c9dupe : Performer := { id := "D9", name := some "d", alias_list := ["Y", "y", "Y ", "y  "] }

/-- C9 (counterexample): the keeper is picked by maximal completeness
score (ties to the first in order), but AFTER merging, the payload's
`dedup_aliases` collapses the keeper's case-duplicate aliases, so the
merged keeper's score (4) drops BELOW the dupe's original score (5) —
refuting "after the group is merged, the keeper's completeness score is
greater than or equal to every original member's score". -/
theorem C9_counterexample :
    _pick_keeper [c9keeper, c9dupe] = some c9keeper ∧
    _count_filled_fields c9keeper = _count_filled_fields c9dupe ∧
    _count_filled_fields (lookupP (_merge_duplicate_group [c9keeper, c9dupe]
      { performers := [c9keeper, c9dupe] } ["K9", "D9"] false).1.1 "K9") <
      _count_filled_fields c9dupe := by
  decide

/-! ## C3: association conservation -/

def c3keeper : Performer := { id := "KA", name := some "ka", gender := some "M" }
def c3dupe : Performer := { id := "DA", name := some "da" }
def c3state : ServerState :=
  { performers := [c3keeper, c3dupe], scenes := [⟨"S1", ["DA", "KA"]⟩] }

/-- C3 (counterexample): a scene referencing BOTH the dupe and the keeper
holds two distinct (association, performer) pairs into the group before
the merge, but only one pair onto the keeper afterwards (the rewrite
de-duplicates), so the pair COUNT is not conserved as the claim states. -/
theorem C3_counterexample :
    assocPairCount c3state.scenes ["KA", "DA"] = 2 ∧
    keeperPairCount (_merge_duplicate_group [c3keeper, c3dupe] c3state
      ["KA", "DA"] false).1.2.scenes "KA" = 1 ∧
    ¬ (assocPairCount c3state.scenes ["KA", "DA"] =
       keeperPairCount (_merge_duplicate_group [c3keeper, c3dupe] c3state
         ["KA", "DA"] false).1.2.scenes "KA") := by
  decide

/-! ### Machinery for C3: content reassignment as a per-row function -/
theorem mem_appendUnique (acc : List String) (y x : String) :
    (x ∈ (if acc.contains y then acc else acc ++ [y])) ↔ (x ∈ acc ∨ x = y) := by
  by_cases h : acc.contains y
  · rw [if_pos h]
    have hy : y ∈ acc := List.elem_iff.mp h
    constructor
    · exact Or.inl
    · rintro (hx | rfl)
      · exact hx
      · exact hy
  · rw [if_neg h]
    simp

theorem mem_rewriteIds_aux (d k : String) (l : List String) (acc : List String) (x : String) :
    x ∈ l.foldl (fun acc pid =>
      if pid = d then (if acc.contains k then acc else acc ++ [k])
      else (if acc.contains pid then acc else acc ++ [pid])) acc ↔
    (x ∈ acc ∨ (x ∈ l ∧ x ≠ d) ∨ (x = k ∧ d ∈ l)) := by
  induction l generalizing acc with
  | nil => simp
  | cons p ps ih =>
    simp only [List.foldl_cons]
    by_cases hpd : p = d
    · subst hpd
      rw [if_pos rfl, ih, mem_appendUnique]
      simp only [List.mem_cons]
      constructor
      · rintro ((hx | rfl) | h | h) <;> tauto
      · rintro (hx | ⟨(rfl | hx), hnd⟩ | ⟨rfl, _⟩) <;> tauto
    · rw [if_neg hpd, ih, mem_appendUnique]
      simp only [List.mem_cons]
      constructor
      · rintro ((hx | rfl) | h | h) <;> tauto
      · rintro (hx | ⟨(rfl | hx), hnd⟩ | ⟨rfl, (rfl | hd)⟩) <;> tauto

theorem mem_rewriteIds (l : List String) (d k x : String) :
    x ∈ rewriteIds l d k ↔ ((x ∈ l ∧ x ≠ d) ∨ (x = k ∧ d ∈ l)) := by
  unfold rewriteIds
  rw [mem_rewriteIds_aux]
  simp

theorem nodup_appendUnique (acc : List String) (y : String) (h : acc.Nodup) :
    (if acc.contains y then acc else acc ++ [y]).Nodup := by
  by_cases hc : acc.contains y
  · rwa [if_pos hc]
  · rw [if_neg hc]
    rw [List.nodup_append]
    exact ⟨h, List.nodup_singleton y,
      fun a ha => by simp; rintro rfl; exact hc (List.elem_iff.mpr ha)⟩

theorem nodup_rewriteIds (l : List String) (d k : String) : (rewriteIds l d k).Nodup := by
  unfold rewriteIds
  have : ∀ acc : List String, acc.Nodup → (l.foldl (fun acc pid =>
      if pid = d then (if acc.contains k then acc else acc ++ [k])
      else (if acc.contains pid then acc else acc ++ [pid])) acc).Nodup := by
    induction l with
    | nil => exact fun acc h => h
    | cons p ps ih =>
      intro acc h
      simp only [List.foldl_cons]
      by_cases hpd : p = d
      · rw [if_pos hpd]; exact ih _ (nodup_appendUnique _ _ h)
      · rw [if_neg hpd]; exact ih _ (nodup_appendUnique _ _ h)
  exact this [] List.nodup_nil

theorem sameSet_iff (a b : List String) :
    sameSet a b = true ↔ (∀ x, (x ∈ a ↔ x ∈ b)) := by
  unfold sameSet
  simp only [Bool.and_eq_true, List.all_eq_true, List.elem_iff]
  constructor
  · rintro ⟨h1, h2⟩ x
    exact ⟨fun hx => h1 x hx, fun hx => h2 x hx⟩
  · intro h
    exact ⟨fun x hx => (h x).mp hx, fun x hx => (h x).mpr hx⟩



/-- The per-row effect of reassigning one dupe (an update is issued only
when the id set actually changes). -/
def reassignRow (d k : String) (c : Content) : Content :=
  if c.performers.contains d && !sameSet (rewriteIds c.performers d k) c.performers
  then { id := c.id, performers := rewriteIds c.performers d k } else c

/-- One update of the fold, as a per-row function (fires only on the row
whose id matches the snapshot row, when the condition holds). -/
def fixRow (d k : String) (c x : Content) : Content :=
  if (!sameSet (rewriteIds c.performers d k) c.performers) && x.id = c.id
  then { id := x.id, performers := rewriteIds c.performers d k } else x

def chainFix (d k : String) : List Content → Content → Content
  | [], x => x
  | c :: ms, x => chainFix d k ms (fixRow d k c x)

theorem foldl_fst_eq {σ γ : Type} (f : σ × Nat → γ → σ × Nat) (g : σ → γ → σ)
    (hfg : ∀ acc c, (f acc c).1 = g acc.1 c) (ms : List γ) (acc : σ × Nat) :
    (ms.foldl f acc).1 = ms.foldl g acc.1 := by
  induction ms generalizing acc with
  | nil => rfl
  | cons c ms ih => rw [List.foldl_cons, ih, hfg, List.foldl_cons]

theorem reassign_fold_map (d k : String) (ms : List Content) (cur : List Content) :
    ms.foldl (fun cur c =>
      if (!sameSet (rewriteIds c.performers d k) c.performers)
      then cur.map (fun c2 => if c2.id = c.id
        then { id := c2.id, performers := rewriteIds c.performers d k } else c2)
      else cur) cur = cur.map (chainFix d k ms) := by
  induction ms generalizing cur with
  | nil => simp [chainFix]
  | cons c ms ih =>
    simp only [List.foldl_cons]
    have hstep : (if (!sameSet (rewriteIds c.performers d k) c.performers)
        then cur.map (fun c2 => if c2.id = c.id
          then { id := c2.id, performers := rewriteIds c.performers d k } else c2)
        else cur) = cur.map (fixRow d k c) := by
      by_cases hc : (!sameSet (rewriteIds c.performers d k) c.performers) = true
      · rw [if_pos hc]
        apply List.map_congr_left
        intro x _
        unfold fixRow
        rw [show ((!sameSet (rewriteIds c.performers d k) c.performers) && x.id = c.id)
            = (decide (x.id = c.id)) by rw [hc]; simp]
        split <;> rename_i h
        · rw [if_pos (by simpa using h)]
        · rw [if_neg (by simpa using h)]
      · rw [if_neg hc]
        have hid : ∀ x ∈ cur, fixRow d k c x = id x := by
          intro x _
          unfold fixRow
          rw [if_neg (fun hand => hc ((Bool.and_eq_true _ _).mp hand).1)]
          rfl
        exact ((List.map_congr_left hid).trans (List.map_id cur)).symm
    rw [hstep, ih, List.map_map]
    rfl

theorem fixRow_of_ne (d k : String) (c x : Content) (h : x.id ≠ c.id) :
    fixRow d k c x = x := by
  unfold fixRow
  rw [if_neg (fun hand => h (by simpa using ((Bool.and_eq_true _ _).mp hand).2))]

theorem chainFix_of_notmem (d k : String) (ms : List Content) (x : Content)
    (h : ∀ c ∈ ms, x.id ≠ c.id) : chainFix d k ms x = x := by
  induction ms with
  | nil => rfl
  | cons c ms ih =>
    unfold chainFix
    rw [fixRow_of_ne d k c x (h c (List.mem_cons_self c ms))]
    exact ih (fun c' hc' => h c' (List.mem_cons_of_mem c hc'))

theorem chainFix_char (d k : String) (ms : List Content) (x : Content)
    (hids : (ms.map Content.id).Nodup) (hinj : ∀ c ∈ ms, c.id = x.id → c = x) :
    chainFix d k ms x =
      if x ∈ ms then
        (if (!sameSet (rewriteIds x.performers d k) x.performers)
         then { id := x.id, performers := rewriteIds x.performers d k } else x)
      else x := by
  induction ms with
  | nil => simp [chainFix]
  | cons c ms ih =>
    simp only [List.map_cons, List.nodup_cons] at hids
    by_cases hcx : c = x
    · subst hcx
      have hne : ∀ c' ∈ ms, c.id ≠ c'.id := by
        intro c' hc' he
        exact hids.1 (he ▸ List.mem_map_of_mem Content.id hc')
      unfold chainFix fixRow
      by_cases hcond : (!sameSet (rewriteIds c.performers d k) c.performers) = true
      · rw [if_pos (by rw [hcond]; simp)]
        rw [chainFix_of_notmem d k ms
          { id := c.id, performers := rewriteIds c.performers d k }
          (fun c' hc' => hne c' hc')]
        rw [if_pos (List.mem_cons_self c ms), if_pos hcond]
      · rw [if_neg (fun hand => hcond ((Bool.and_eq_true _ _).mp hand).1)]
        rw [chainFix_of_notmem d k ms c (fun c' hc' => hne c' hc')]
        rw [if_pos (List.mem_cons_self c ms), if_neg hcond]
    · have hne : x.id ≠ c.id := by
        intro he
        exact hcx ((hinj c (List.mem_cons_self c ms) he.symm).symm ▸ rfl)
      unfold chainFix
      rw [fixRow_of_ne d k c x hne]
      rw [ih hids.2 (fun c' hc' h' => hinj c' (List.mem_cons_of_mem c hc') h')]
      by_cases hxm : x ∈ ms
      · rw [if_pos hxm, if_pos (List.mem_cons_of_mem c hxm)]
      · rw [if_neg hxm, if_neg (by
          intro hmem
          rcases List.mem_cons.mp hmem with h' | h'
          · exact hcx h'.symm
          · exact hxm h')]



theorem reassignKind_live_char (cs : List Content) (d k : String)
    (hids : (cs.map Content.id).Nodup) :
    (reassignKind cs d k false).1 = cs.map (reassignRow d k) := by
  unfold reassignKind
  rw [foldl_fst_eq _ (fun cur c =>
      if (!sameSet (rewriteIds c.performers d k) c.performers)
      then cur.map (fun c2 => if c2.id = c.id
        then { id := c2.id, performers := rewriteIds c.performers d k } else c2)
      else cur)
    (fun acc c => by
      dsimp only
      split <;> rename_i h
      · simp
      · rfl)]
  rw [reassign_fold_map]
  apply List.map_congr_left
  intro x hx
  have hinj : ∀ c ∈ cs.filter (fun c => c.performers.contains d), c.id = x.id → c = x :=
    fun c hc hcid => List.inj_on_of_nodup_map hids (List.mem_of_mem_filter hc) hx hcid
  have hmsids : ((cs.filter (fun c => c.performers.contains d)).map Content.id).Nodup :=
    (List.Sublist.map Content.id (List.filter_sublist cs)).nodup hids
  rw [chainFix_char d k _ x hmsids hinj]
  unfold reassignRow
  by_cases hxd : x.performers.contains d = true
  · rw [if_pos (List.mem_filter.mpr ⟨hx, hxd⟩)]
    by_cases hss : (!sameSet (rewriteIds x.performers d k) x.performers) = true
    · rw [if_pos hss, if_pos (by rw [hxd, hss]; rfl)]
    · rw [if_neg hss, if_neg (by rw [hxd]; simpa using hss)]
  · rw [if_neg (show x ∉ List.filter (fun c => c.performers.contains d) cs from
          fun hmem => hxd ((List.mem_filter.mp hmem).2)),
        if_neg (fun hand => hxd ((Bool.and_eq_true _ _).mp hand).1)]

theorem reassignRow_id (d k : String) (c : Content) : (reassignRow d k c).id = c.id := by
  unfold reassignRow
  split <;> rfl

theorem mem_reassignRow (d k : String) (c : Content) (x : String) :
    x ∈ (reassignRow d k c).performers ↔
    ((x ∈ c.performers ∧ x ≠ d) ∨ (x = k ∧ d ∈ c.performers)) := by
  unfold reassignRow
  split <;> rename_i h
  · exact mem_rewriteIds c.performers d k x
  · simp only [Bool.and_eq_true, Bool.not_eq_true'] at h
    by_cases hcd : c.performers.contains d = true
    · have hss : sameSet (rewriteIds c.performers d k) c.performers = true := by
        rcases Bool.eq_false_or_eq_true (sameSet (rewriteIds c.performers d k) c.performers)
          with ht | hf
        · exact ht
        · exact absurd ⟨hcd, hf⟩ h
      have := (sameSet_iff _ _).mp hss x
      exact this.symm.trans (mem_rewriteIds c.performers d k x)
    · have hd : d ∉ c.performers := fun hd => hcd (List.elem_iff.mpr hd)
      constructor
      · intro hx
        exact Or.inl ⟨hx, fun he => hd (he ▸ hx)⟩
      · rintro (⟨hx, _⟩ | ⟨_, hdc⟩)
        · exact hx
        · exact absurd hdc hd

theorem nodup_reassignRow (d k : String) (c : Content) (h : c.performers.Nodup) :
    (reassignRow d k c).performers.Nodup := by
  unfold reassignRow
  split
  · exact nodup_rewriteIds c.performers d k
  · exact h



theorem lookupP_id (mem : List Performer) (i : String) : (lookupP mem i).id = i := by
  unfold lookupP
  rcases h : mem.find? (fun p => p.id = i) with _ | p
  · rw [h]; rfl
  · rw [h]
    have := List.find?_some h
    simpa using this

theorem pickKeeper_mem {l : List Performer} {k : Performer}
    (h : _pick_keeper l = some k) : k ∈ l := by
  rcases l with _ | ⟨p, ps⟩
  · cases h
  · unfold _pick_keeper at h
    have hmem : ∀ (acc : Performer), acc ∈ p :: ps →
        (ps.foldl (fun best x =>
          if _count_filled_fields x > _count_filled_fields best then x else best) acc) ∈ p :: ps := by
      have : ∀ (qs : List Performer) (acc : Performer) (l0 : List Performer),
          acc ∈ l0 → (∀ q ∈ qs, q ∈ l0) →
          (qs.foldl (fun best x =>
            if _count_filled_fields x > _count_filled_fields best then x else best) acc) ∈ l0 := by
        intro qs
        induction qs with
        | nil => intro acc l0 ha _; exact ha
        | cons q qs ih =>
          intro acc l0 ha hq
          simp only [List.foldl_cons]
          apply ih
          · split
            · exact hq q (List.mem_cons_self q qs)
            · exact ha
          · exact fun r hr => hq r (List.mem_cons_of_mem q hr)
      intro acc ha
      exact this ps acc (p :: ps) ha (fun q hq => List.mem_cons_of_mem p hq)
    have hfold := hmem p (List.mem_cons_self p ps)
    have hk : (ps.foldl (fun best x =>
        if _count_filled_fields x > _count_filled_fields best then x else best) p) = k := by
      simpa using h
    exact hk ▸ hfold

/-- The cumulative per-row effect of reassigning a list of dupes. -/
def groupRow (kid : String) (ds : List String) (c : Content) : Content :=
  ds.foldl (fun c d => reassignRow d kid c) c

theorem groupRow_id (kid : String) (ds : List String) (c : Content) :
    (groupRow kid ds c).id = c.id := by
  unfold groupRow
  induction ds generalizing c with
  | nil => rfl
  | cons d ds ih => rw [List.foldl_cons, ih, reassignRow_id]

theorem mem_groupRow (kid : String) (ds : List String) (c : Content) (x : String)
    (hkid : ∀ d ∈ ds, d ≠ kid) :
    x ∈ (groupRow kid ds c).performers ↔
    ((x ∈ c.performers ∧ x ∉ ds) ∨ (x = kid ∧ ∃ d ∈ ds, d ∈ c.performers)) := by
  unfold groupRow
  induction ds generalizing c with
  | nil => simp
  | cons d ds ih =>
    rw [List.foldl_cons]
    rw [ih (reassignRow d kid c) (fun d' hd' => hkid d' (List.mem_cons_of_mem d hd'))]
    have hd : d ≠ kid := hkid d (List.mem_cons_self d ds)
    constructor
    · rintro (⟨hx, hnds⟩ | ⟨hxk, e, he, hec⟩)
      · rcases (mem_reassignRow d kid c x).mp hx with ⟨hxc, hxd⟩ | ⟨hxk, hdc⟩
        · exact Or.inl ⟨hxc, by simp [hxd, hnds]⟩
        · exact Or.inr ⟨hxk, d, List.mem_cons_self d ds, hdc⟩
      · rcases (mem_reassignRow d kid c e).mp hec with ⟨hec2, _⟩ | ⟨hek, _⟩
        · exact Or.inr ⟨hxk, e, List.mem_cons_of_mem d he, hec2⟩
        · exact absurd hek (hkid e (List.mem_cons_of_mem d he))
    · rintro (⟨hx, hnds⟩ | ⟨hxk, e, he, hec⟩)
      · simp only [List.mem_cons, not_or] at hnds
        exact Or.inl ⟨(mem_reassignRow d kid c x).mpr (Or.inl ⟨hx, hnds.1⟩), hnds.2⟩
      · rcases List.mem_cons.mp he with he1 | he2
        · by_cases hkds : kid ∈ ds
          · exact absurd rfl (hkid kid (List.mem_cons_of_mem d hkds))
          · exact Or.inl ⟨(mem_reassignRow d kid c x).mpr (Or.inr ⟨hxk, he1 ▸ hec⟩),
              fun hx2 => hkds (hxk ▸ hx2)⟩
        · by_cases hed : e = d
          · by_cases hkds : kid ∈ ds
            · exact absurd rfl (hkid kid (List.mem_cons_of_mem d hkds))
            · exact Or.inl ⟨(mem_reassignRow d kid c x).mpr (Or.inr ⟨hxk, hed ▸ hec⟩),
                fun hx2 => hkds (hxk ▸ hx2)⟩
          · exact Or.inr ⟨hxk, e, he2,
              (mem_reassignRow d kid c e).mpr (Or.inl ⟨hec, hed⟩)⟩

theorem nodup_groupRow (kid : String) (ds : List String) (c : Content)
    (h : c.performers.Nodup) : (groupRow kid ds c).performers.Nodup := by
  unfold groupRow
  induction ds generalizing c with
  | nil => exact h
  | cons d ds ih => exact List.foldl_cons _ _ ▸ ih _ (nodup_reassignRow d kid c h)



theorem map_reassignRow_ids (d k : String) (cs : List Content) :
    (cs.map (reassignRow d k)).map Content.id = cs.map Content.id := by
  rw [List.map_map]
  exact List.map_congr_left (fun c _ => reassignRow_id d k c)

theorem update_contents (st : ServerState) (u : Payload) (pid : String) :
    (serverUpdatePerformer st u pid).scenes = st.scenes ∧
    (serverUpdatePerformer st u pid).galleries = st.galleries ∧
    (serverUpdatePerformer st u pid).images = st.images :=
  ⟨rfl, rfl, rfl⟩

theorem destroy_contents (st : ServerState) (pid : String) :
    (serverDestroyPerformer st pid).scenes = st.scenes ∧
    (serverDestroyPerformer st pid).galleries = st.galleries ∧
    (serverDestroyPerformer st pid).images = st.images :=
  ⟨rfl, rfl, rfl⟩

theorem reassign_content_fields (st : ServerState) (d k : String) (dry : Bool) :
    (_reassign_content st d k dry).1.scenes = (reassignKind st.scenes d k dry).1 ∧
    (_reassign_content st d k dry).1.galleries = (reassignKind st.galleries d k dry).1 ∧
    (_reassign_content st d k dry).1.images = (reassignKind st.images d k dry).1 :=
  ⟨rfl, rfl, rfl⟩

theorem mergeDupeStep_contents (kid : String) (mem : List Performer) (st : ServerState)
    (d : String)
    (hsc : (st.scenes.map Content.id).Nodup)
    (hga : (st.galleries.map Content.id).Nodup)
    (him : (st.images.map Content.id).Nodup) :
    (mergeDupeStep false kid (mem, st) d).2.scenes = st.scenes.map (reassignRow d kid) ∧
    (mergeDupeStep false kid (mem, st) d).2.galleries = st.galleries.map (reassignRow d kid) ∧
    (mergeDupeStep false kid (mem, st) d).2.images = st.images.map (reassignRow d kid) := by
  unfold mergeDupeStep
  dsimp only
  by_cases hb : ((_merge_performer_metadata (lookupP mem kid) (lookupP mem d)).2 && !false) = true
  · rw [if_pos hb, if_pos (show (!false) = true from rfl)]
    refine ⟨?_, ?_, ?_⟩
    · rw [(destroy_contents _ _).1, (reassign_content_fields _ _ _ _).1,
          (update_contents _ _ _).1]
      exact reassignKind_live_char _ _ _ hsc
    · rw [(destroy_contents _ _).2.1, (reassign_content_fields _ _ _ _).2.1,
          (update_contents _ _ _).2.1]
      exact reassignKind_live_char _ _ _ hga
    · rw [(destroy_contents _ _).2.2, (reassign_content_fields _ _ _ _).2.2,
          (update_contents _ _ _).2.2]
      exact reassignKind_live_char _ _ _ him
  · rw [if_neg hb, if_pos (show (!false) = true from rfl)]
    refine ⟨?_, ?_, ?_⟩
    · rw [(destroy_contents _ _).1, (reassign_content_fields _ _ _ _).1]
      exact reassignKind_live_char _ _ _ hsc
    · rw [(destroy_contents _ _).2.1, (reassign_content_fields _ _ _ _).2.1]
      exact reassignKind_live_char _ _ _ hga
    · rw [(destroy_contents _ _).2.2, (reassign_content_fields _ _ _ _).2.2]
      exact reassignKind_live_char _ _ _ him

theorem groupRow_cons (kid d : String) (ds : List String) (c : Content) :
    groupRow kid (d :: ds) c = groupRow kid ds (reassignRow d kid c) := by
  unfold groupRow
  rw [List.foldl_cons]

theorem mergeFold_contents (kid : String) (ds : List String) (mem : List Performer)
    (st : ServerState)
    (hsc : (st.scenes.map Content.id).Nodup)
    (hga : (st.galleries.map Content.id).Nodup)
    (him : (st.images.map Content.id).Nodup) :
    (ds.foldl (mergeDupeStep false kid) (mem, st)).2.scenes =
      st.scenes.map (groupRow kid ds) ∧
    (ds.foldl (mergeDupeStep false kid) (mem, st)).2.galleries =
      st.galleries.map (groupRow kid ds) ∧
    (ds.foldl (mergeDupeStep false kid) (mem, st)).2.images =
      st.images.map (groupRow kid ds) := by
  induction ds generalizing mem st with
  | nil =>
    refine ⟨?_, ?_, ?_⟩ <;>
      exact (List.map_congr_left (fun c _ => rfl)).symm.trans (List.map_id _) |>.symm
  | cons d ds ih =>
    rw [List.foldl_cons]
    obtain ⟨h1, h2, h3⟩ := mergeDupeStep_contents kid mem st d hsc hga him
    rcases hstep : mergeDupeStep false kid (mem, st) d with ⟨mem2, st2⟩
    rw [hstep] at h1 h2 h3
    have hsc2 : (st2.scenes.map Content.id).Nodup := by
      rw [h1, map_reassignRow_ids]; exact hsc
    have hga2 : (st2.galleries.map Content.id).Nodup := by
      rw [h2, map_reassignRow_ids]; exact hga
    have him2 : (st2.images.map Content.id).Nodup := by
      rw [h3, map_reassignRow_ids]; exact him
    obtain ⟨g1, g2, g3⟩ := ih mem2 st2 hsc2 hga2 him2
    refine ⟨?_, ?_, ?_⟩
    · rw [g1, h1, List.map_map]
      exact List.map_congr_left (fun c _ => (groupRow_cons kid d ds c).symm)
    · rw [g2, h2, List.map_map]
      exact List.map_congr_left (fun c _ => (groupRow_cons kid d ds c).symm)
    · rw [g3, h3, List.map_map]
      exact List.map_congr_left (fun c _ => (groupRow_cons kid d ds c).symm)



/-- Spec-level conservation for one content kind: the number of distinct
associations referencing the keeper afterwards equals the number
referencing any group member before; merged-away members are referenced
by nothing; and no duplicate references are introduced. -/
def kindConserved (before after : List Content) (group : List String) (kid : String) : Prop :=
  (after.filter (fun c => c.performers.contains kid)).length =
    (before.filter (fun c => group.any (fun m => c.performers.contains m))).length ∧
  (∀ c ∈ after, ∀ d ∈ group, d ≠ kid → d ∉ c.performers) ∧
  ((∀ c ∈ before, c.performers.Nodup) → ∀ c ∈ after, c.performers.Nodup)

theorem kindConserved_map (before : List Content) (group : List String) (kid : String)
    (hkid : kid ∈ group) :
    kindConserved before
      (before.map (groupRow kid (group.filter (fun i => i ≠ kid)))) group kid := by
  have hDne : ∀ d ∈ group.filter (fun i => i ≠ kid), d ≠ kid :=
    fun d hd => by simpa using (List.mem_filter.mp hd).2
  refine ⟨?_, ?_, ?_⟩
  · rw [← List.countP_eq_length_filter, ← List.countP_eq_length_filter, List.countP_map]
    apply List.countP_congr
    intro c _
    simp only [Function.comp_apply, List.elem_iff, List.any_eq_true]
    rw [mem_groupRow kid _ c kid hDne]
    constructor
    · rintro (⟨hk, _⟩ | ⟨_, d, hd, hdc⟩)
      · exact ⟨kid, hkid, hk⟩
      · exact ⟨d, List.mem_of_mem_filter hd, hdc⟩
    · rintro ⟨m, hm, hmc⟩
      by_cases hmk : m = kid
      · by_cases hkD : kid ∈ group.filter (fun i => i ≠ kid)
        · exact absurd rfl (hDne kid hkD)
        · exact Or.inl ⟨hmk ▸ hmc, hkD⟩
      · exact Or.inr ⟨rfl, m, List.mem_filter.mpr ⟨hm, by simpa using hmk⟩, hmc⟩
  · intro c hc d hd hdk
    obtain ⟨c0, _, rfl⟩ := List.mem_map.mp hc
    rw [mem_groupRow kid _ c0 d hDne]
    rintro (⟨_, hnd⟩ | ⟨hdk2, _⟩)
    · exact hnd (List.mem_filter.mpr ⟨hd, by simpa using hdk⟩)
    · exact hdk hdk2
  · intro hnd c hc
    obtain ⟨c0, hc0, rfl⟩ := List.mem_map.mp hc
    exact nodup_groupRow kid _ c0 (hnd c0 hc0)



theorem pickKeeper_isSome {l : List Performer} (h : l ≠ []) :
    (_pick_keeper l).isSome = true := by
  rcases l with _ | ⟨p, ps⟩
  · exact absurd rfl h
  · rfl

/-- C3 (amended): for every duplicate group merged live, there is a
selected keeper in the group such that, for each content kind, the number
of distinct associations referencing the keeper afterwards equals the
number of distinct associations referencing at least one group member
before (the SET of associations is conserved — though the claim's count
of (association, performer) PAIRS is not, see the counterexample);
moreover no association references a merged-away member afterwards, and
no duplicate association edge is introduced. -/
theorem C3_conservation_amended (mem : List Performer) (st : ServerState)
    (group : List String) (hlen : 2 ≤ group.length)
    (hsc : (st.scenes.map Content.id).Nodup)
    (hga : (st.galleries.map Content.id).Nodup)
    (him : (st.images.map Content.id).Nodup) :
    ∃ kid, (_merge_duplicate_group mem st group false).2.1 = some kid ∧ kid ∈ group ∧
      kindConserved st.scenes (_merge_duplicate_group mem st group false).1.2.scenes group kid ∧
      kindConserved st.galleries (_merge_duplicate_group mem st group false).1.2.galleries group kid ∧
      kindConserved st.images (_merge_duplicate_group mem st group false).1.2.images group kid := by
  unfold _merge_duplicate_group
  rw [if_neg (by omega)]
  have hne : group.map (lookupP mem) ≠ [] := by
    intro hmap
    have h0 := List.map_eq_nil_iff.mp hmap
    rw [h0] at hlen
    simp at hlen
  rcases hpick : _pick_keeper (group.map (lookupP mem)) with _ | keeper0
  · have hs := pickKeeper_isSome hne
    rw [hpick] at hs
    cases hs
  · dsimp only
    obtain ⟨gid, hgid, hkeq⟩ := List.mem_map.mp (pickKeeper_mem hpick)
    have hkid : keeper0.id ∈ group := by
      rw [← hkeq, lookupP_id]
      exact hgid
    refine ⟨keeper0.id, rfl, hkid, ?_, ?_, ?_⟩
    all_goals {
      obtain ⟨h1, h2, h3⟩ := mergeFold_contents keeper0.id
        (group.filter (fun i => i ≠ keeper0.id)) mem st hsc hga him
      first
        | exact h1 ▸ kindConserved_map st.scenes group keeper0.id hkid
        | exact h2 ▸ kindConserved_map st.galleries group keeper0.id hkid
        | exact h3 ▸ kindConserved_map st.images group keeper0.id hkid
    }



theorem C3_conservation_amended_witness :
    ∃ kid, (_merge_duplicate_group [c3keeper, c3dupe] c3state ["KA", "DA"] false).2.1 = some kid ∧
      kid ∈ ["KA", "DA"] ∧
      kindConserved c3state.scenes
        (_merge_duplicate_group [c3keeper, c3dupe] c3state ["KA", "DA"] false).1.2.scenes
        ["KA", "DA"] kid ∧
      kindConserved c3state.galleries
        (_merge_duplicate_group [c3keeper, c3dupe] c3state ["KA", "DA"] false).1.2.galleries
        ["KA", "DA"] kid ∧
      kindConserved c3state.images
        (_merge_duplicate_group [c3keeper, c3dupe] c3state ["KA", "DA"] false).1.2.images
        ["KA", "DA"] kid :=
  C3_conservation_amended [c3keeper, c3dupe] c3state ["KA", "DA"]
    (by decide) (by decide) (by decide) (by decide)

/-! ## C2: grouping soundness -/

def c2P : Performer := { id := "P", name := some "pp", gender := some "M", country := some "US",
                         stash_ids := [⟨"https://e1.org", "X"⟩, ⟨"https://e2.org", "Y"⟩] }
def c2Q : Performer := { id := "Q", name := some "qq", stash_ids := [⟨"https://e1.org", "X"⟩] }
def c2R : Performer := { id := "R", name := some "rr", stash_ids := [⟨"https://e2.org", "Y"⟩] }

/-- C2 (counterexample): a performer carrying two external links lands in
two phase-1 buckets; after surviving the first group as its keeper it is
processed again in the second group — so a record id CAN appear in two
different groups within the same pass (only merged-away records are
excluded). -/
theorem C2_counterexample :
    (find_and_merge_duplicates [c2P, c2Q, c2R]
      { performers := [c2P, c2Q, c2R] } false).trace.map Prod.fst = [["P", "Q"], ["P", "R"]] ∧
    "P" ∈ ["P", "Q"] ∧ "P" ∈ ["P", "R"] ∧ (["P", "Q"] : List String) ≠ ["P", "R"] := by
  decide

/-- Invariant threaded through one dedup pass: every processed group has
at least two members, absorbed ids land in the running deleted set, and
ids absorbed by an earlier group never reappear in a later group. -/
def passInv (ps : PassState) : Prop :=
  (∀ e ∈ ps.trace, 2 ≤ e.1.length) ∧
  (∀ e ∈ ps.trace, ∀ i ∈ e.2, i ∈ ps.deleted) ∧
  ps.trace.Pairwise (fun x y => ∀ i ∈ x.2, i ∉ y.1)

theorem processGroup_inv (dry : Bool) (ps : PassState) (gids : List String)
    (h : passInv ps) : passInv (processGroup dry ps gids) := by
  unfold processGroup
  dsimp only
  split
  · exact h
  · rename_i hlen
    obtain ⟨h1, h2, h3⟩ := h
    refine ⟨?_, ?_, ?_⟩
    · intro e he
      rcases List.mem_append.mp he with he | he
      · exact h1 e he
      · simp only [List.mem_singleton] at he
        subst he
        exact Nat.le_of_not_lt hlen
    · intro e he i hi
      rcases List.mem_append.mp he with he | he
      · exact List.mem_append_left _ (h2 e he i hi)
      · simp only [List.mem_singleton] at he
        subst he
        exact List.mem_append_right _ hi
    · rw [List.pairwise_append]
      refine ⟨h3, List.pairwise_singleton _ _, ?_⟩
      intro a ha b hb i hia
      simp only [List.mem_singleton] at hb
      subst hb
      intro hig
      have hidel : i ∈ ps.deleted := h2 a ha i hia
      have hc := (List.mem_filter.mp hig).2
      simp at hc
      exact hc hidel

theorem processGroups_fold_inv {γ : Type} (dry : Bool) (f : γ → List String)
    (xs : List γ) (ps : PassState) (h : passInv ps) :
    passInv (xs.foldl (fun ps b => processGroup dry ps (f b)) ps) := by
  induction xs generalizing ps with
  | nil => exact h
  | cons x xs ih => exact ih _ (processGroup_inv dry ps (f x) h)

/-- C2 (amended): every group processed by a dedup pass has at least two
members, and a record absorbed (merged away) by an earlier group never
participates in a later group of the same pass; however a surviving
keeper CAN appear in several groups of one pass (see the
counterexample), so the pass only guarantees exclusion of merged-away
ids, not of all ids. -/
theorem C2_grouping_amended (mem : List Performer) (st : ServerState) (dry : Bool) :
    (∀ e ∈ (find_and_merge_duplicates mem st dry).trace, 2 ≤ e.1.length) ∧
    (find_and_merge_duplicates mem st dry).trace.Pairwise
      (fun x y => ∀ i ∈ x.2, i ∉ y.1) := by
  have h : passInv (find_and_merge_duplicates mem st dry) := by
    unfold find_and_merge_duplicates
    simp only
    exact processGroups_fold_inv _ _ _ _
      (processGroups_fold_inv _ _ _ _
        (processGroups_fold_inv _ _ _ _
          ⟨by simp, by simp, List.Pairwise.nil⟩))
  exact ⟨h.1, h.2.2⟩

/-! ## C8: the cross-registry matcher -/

def c8f : String → List SBEntry := fun t =>
  if t = "a" then [{ id := "X", name := "", aliases := ["a"] }]
  else if t = "b" then [{ id := "Y", name := "B" }]
  else []

/-- C8 (counterexample): the first candidate's result set contains an
entry matching by alias, but that entry's canonical name is the empty
string; `if stashdb_name:` treats it as falsy, so the loop queries the
NEXT candidate and returns its match instead — refuting both "candidates
after the first matching one are never queried" and "returns the
canonical name and id from the first candidate [with a matching
entry]". -/
theorem C8_counterexample :
    (∃ e ∈ c8f "a", entryHit (normKey "a") e) ∧
    (searchLoopT c8f ["a", "b"]).2 = ["a", "b"] ∧
    (searchLoopT c8f ["a", "b"]).1 = (some "B", some "Y") ∧
    (searchLoopT c8f ["a", "b"]).1 ≠ (some "", some "X") := by
  decide

/-- The terms a loop honouring "stop at the first hit" queries: the
prefix of the candidate list through the first candidate whose search
returns a match. -/
def queriedUpTo (f : String → List SBEntry) : List String → List String
  | [] => []
  | t :: ts => if (search_stashdb t (f t)).isSome then [t] else t :: queriedUpTo f ts

theorem search_stashdb_mem {t : String} {res : List SBEntry} {n i : String}
    (h : search_stashdb t res = some (n, i)) :
    ∃ e ∈ res, e.name = n ∧ e.id = i ∧ entryHit (normKey t) e = true := by
  unfold search_stashdb at h
  obtain ⟨e, he, hfe⟩ := List.exists_of_findSome?_eq_some h
  refine ⟨e, he, ?_⟩
  by_cases hhit : entryHit (normKey t) e = true
  · rw [if_pos hhit] at hfe
    simp only [Option.some.injEq, Prod.mk.injEq] at hfe
    exact ⟨hfe.1, hfe.2, hhit⟩
  · rw [if_neg hhit] at hfe
    cases hfe

theorem search_stashdb_none_iff (t : String) (res : List SBEntry) :
    search_stashdb t res = none ↔ ∀ e ∈ res, entryHit (normKey t) e = false := by
  unfold search_stashdb
  rw [List.findSome?_eq_none_iff]
  constructor
  · intro h e he
    have := h e he
    by_cases hhit : entryHit (normKey t) e = true
    · rw [if_pos hhit] at this; cases this
    · simpa using hhit
  · intro h e he
    rw [if_neg (by simp [h e he])]

/-- C8 (amended): provided every search-result entry carries a non-empty
canonical name, the matcher returns the `(name, id)` of the first
matching entry of the first candidate (in list order) whose result set
contains an entry whose name or one of whose aliases equals the
candidate case-insensitively after trimming; candidates after the first
matching one are never queried; and a candidate yields no match exactly
when no entry of its result set matches.  (Without the non-empty-name
proviso an empty-named match fails the `if stashdb_name:` truthiness
test and the loop continues — see the counterexample.) -/
theorem C8_matcher_amended (f : String → List SBEntry) (cands : List String)
    (hne : ∀ t, ∀ e ∈ f t, e.name ≠ "") :
    ((searchLoopT f cands).1 =
      match cands.findSome? (fun t => search_stashdb t (f t)) with
      | some (n, i) => (some n, some i)
      | none => (none, none)) ∧
    (searchLoopT f cands).2 = queriedUpTo f cands ∧
    (∀ t, (search_stashdb t (f t) = none ↔ ∀ e ∈ f t, entryHit (normKey t) e = false)) := by
  refine ⟨?_, ?_, fun t => search_stashdb_none_iff t (f t)⟩
  · induction cands with
    | nil => rfl
    | cons t ts ih =>
      rcases hs : search_stashdb t (f t) with _ | ⟨n, i⟩
      · simpa [searchLoopT, hs, List.findSome?_cons] using ih
      · obtain ⟨e, he, hen, _, _⟩ := search_stashdb_mem hs
        have hn : n ≠ "" := hen ▸ hne t e he
        simp [searchLoopT, hs, List.findSome?_cons, hn]
  · induction cands with
    | nil => rfl
    | cons t ts ih =>
      rcases hs : search_stashdb t (f t) with _ | ⟨n, i⟩
      · simpa [searchLoopT, queriedUpTo, hs] using ih
      · obtain ⟨e, he, hen, _, _⟩ := search_stashdb_mem hs
        have hn : n ≠ "" := hen ▸ hne t e he
        simp [searchLoopT, queriedUpTo, hs, hn]

def c8wf : String → List SBEntry := fun t => if t = "a" then [{ id := "Y", name := "A" }] else []

/-- Witness for `C8_matcher_amended` at a concrete search function. -/
theorem C8_matcher_amended_witness :
    (searchLoopT c8wf ["z", "a"]).1 = (some "A", some "Y") ∧
    (searchLoopT c8wf ["z", "a"]).2 = ["z", "a"] := by
  have h := C8_matcher_amended c8wf ["z", "a"] (by
    intro t e he
    unfold c8wf at he
    split at he
    · simp at he; subst he; decide
    · cases he)
  exact ⟨by rw [h.1]; decide, by rw [h.2.1]; decide⟩

/-! ## C4: exit behaviour -/

def c4reg : Registries := { javFind := fun _ => none, sbSearch := fun _ => [], sbFull := fun _ => none }
def c4state : ServerState := { performers := [{ id := "p1", name := some "x" }] }

/-- C4 (counterexample): with no JavStash box configured the pipeline
does halt before fetching, but `main` still reports the SAME success
status `"ok"` to the host that it reports on a successful run — it never
reports an error status. -/
theorem C4_counterexample :
    (identify_stashboxes []).1 = none ∧
    (process [] c4reg c4state false).fetched = false ∧
    (pyMain [] c4reg c4state false).2 = "ok" ∧
    (pyMain [{ endpoint := "https://javstash.org/graphql" }] c4reg c4state false).2 = "ok" := by
  decide

/-- C4 (amended): when no JavStash endpoint is identified the pipeline
halts before fetching or processing any record (the state is returned
untouched), but the host status printed by `main` is the success marker
`"ok"` in every case; with a JavStash endpoint the pipeline runs to
completion. -/
theorem C4_exit_amended (cfg : List Box) (reg : Registries) (st : ServerState)
    (dry : Bool) :
    (pyMain cfg reg st dry).2 = "ok" ∧
    (process cfg reg st dry).ok = (identify_stashboxes cfg).1.isSome ∧
    (process cfg reg st dry).fetched = (identify_stashboxes cfg).1.isSome ∧
    ((identify_stashboxes cfg).1 = none → (process cfg reg st dry).state = st) := by
  unfold process pyMain
  simp only
  rcases h : (identify_stashboxes cfg).1 with _ | box <;> simp_all

/-- Witness for `C4_exit_amended` at a concrete empty configuration. -/
theorem C4_exit_amended_witness :
    (pyMain [] c4reg c4state false).2 = "ok" ∧ (process [] c4reg c4state false).state = c4state := by
  refine ⟨(C4_exit_amended [] c4reg c4state false).1, ?_⟩
  exact (C4_exit_amended [] c4reg c4state false).2.2.2 (by decide)

/-! ## C1: pipeline idempotence -/

def c1F : Performer := { id := "F", name := some "f", disambiguation := some "d1",
                         gender := some "M", country := some "US", ethnicity := some "E" }
def c1H : Performer := { id := "H", name := some "h", alias_list := ["f", "g"] }
def c1G : Performer := { id := "G", name := some "g", eye_color := some "blue",
                         hair_color := some "black", birthdate := some "1990-01-01" }
def c1K : Performer := { id := "K", name := some "k", alias_list := ["g", "w"] }
def c1W : Performer := { id := "W", name := some "w" }
def c1state : ServerState := { performers := [c1F, c1H, c1G, c1K, c1W] }
def c1cfg : List Box := [{ endpoint := "https://javstash.org/graphql", name := "JavStash" }]
def c1reg : Registries := { javFind := fun _ => none, sbSearch := fun _ => [], sbFull := fun _ => none }

/-- C1 (counterexample): phase-3 (alias-to-name) merges executed in the
post-sync pass enlarge the keeper's alias list AFTER the pass's pair list
was collected, so a fresh alias/name collision created by the last pass
survives the first run — and the SECOND run's pre-merge pass finds and
merges one more duplicate group, refuting "running the pipeline a second
time performs zero duplicate merges and both dedup passes find no
groups". -/
theorem C1_counterexample :
    (process c1cfg c1reg (process c1cfg c1reg c1state false).state false).preStats.duplicates_merged = 1 := by
  decide

/-! ## C10: alias-list distinctness in emitted payloads

Key string fact: `str.strip()` is idempotent, so every entry a fold
appended in stripped form keeps its normalised key under `normKey`. -/

theorem prefix_dropWhile_fix {α : Type} (p : α → Bool) {x y : List α} (h : x <+: y)
    (hy : y.dropWhile p = y) : x.dropWhile p = x := by
  rcases x with _ | ⟨a, as⟩
  · rfl
  · rcases h with ⟨t, ht⟩
    rw [← ht, List.cons_append, List.dropWhile_cons] at hy
    rw [List.dropWhile_cons]
    by_cases hp : p a = true
    · rw [if_pos hp] at hy
      have h1 : ((as ++ t).dropWhile p).length ≤ (as ++ t).length :=
        (List.dropWhile_suffix p).sublist.length_le
      rw [hy] at h1
      simp at h1
    · rw [if_neg hp]

theorem pyStripList_front (l : List Char) :
    pyStripList l <+: l.dropWhile pyIsSpace := by
  have h := List.dropWhile_suffix (l := (l.dropWhile pyIsSpace).reverse) pyIsSpace
  have h2 := List.reverse_prefix.mpr h
  rwa [List.reverse_reverse] at h2

theorem pyStripList_fix_left (l : List Char) :
    (pyStripList l).dropWhile pyIsSpace = pyStripList l :=
  prefix_dropWhile_fix pyIsSpace (pyStripList_front l)
    (List.dropWhile_idempotent pyIsSpace l)

theorem pyStripList_rev_fix (l : List Char) :
    (pyStripList l).reverse.dropWhile pyIsSpace = (pyStripList l).reverse := by
  show ((((l.dropWhile pyIsSpace).reverse.dropWhile pyIsSpace).reverse).reverse).dropWhile pyIsSpace
      = (((l.dropWhile pyIsSpace).reverse.dropWhile pyIsSpace).reverse).reverse
  rw [List.reverse_reverse]
  exact List.dropWhile_idempotent pyIsSpace _

theorem pyStripList_idem (l : List Char) :
    pyStripList (pyStripList l) = pyStripList l := by
  show (((pyStripList l).dropWhile pyIsSpace).reverse.dropWhile pyIsSpace).reverse = pyStripList l
  rw [pyStripList_fix_left l, pyStripList_rev_fix l, List.reverse_reverse]

/-- `str.strip()` is idempotent. -/
theorem pyStrip_idem (s : String) : pyStrip (pyStrip s) = pyStrip s :=
  congrArg String.mk (pyStripList_idem s.data)

theorem normKey_pyStrip (s : String) :
    normKey (pyStrip s) = asciiLower (pyStrip s) := by
  unfold normKey
  rw [pyStrip_idem]

/-- `dedup_aliases` specification: the surviving entries have pairwise
distinct, non-blank normalised keys outside the seen set, and come from
the input list. -/
theorem dedupAux_spec (l : List String) : ∀ seen : List String,
    ((dedupAliasesAux seen l).map normKey).Nodup ∧
    ∀ a ∈ dedupAliasesAux seen l, a ∈ l ∧ normKey a ≠ "" ∧ normKey a ∉ seen := by
  induction l with
  | nil => intro seen; simp [dedupAliasesAux]
  | cons a rest ih =>
    intro seen
    have hstep : dedupAliasesAux seen (a :: rest) =
        if normKey a ≠ "" && !(seen.contains (normKey a))
        then a :: dedupAliasesAux (normKey a :: seen) rest
        else dedupAliasesAux seen rest := rfl
    by_cases hc : (normKey a ≠ "" && !(seen.contains (normKey a))) = true
    · rw [hstep, if_pos hc]
      simp only [Bool.and_eq_true, ne_eq, decide_not, Bool.not_eq_true', decide_eq_false_iff_not,
        Bool.not_eq_true] at hc
      have hka : normKey a ≠ "" := hc.1
      have hks : normKey a ∉ seen := by
        have := hc.2; simpa using this
      obtain ⟨ihn, ihm⟩ := ih (normKey a :: seen)
      constructor
      · rw [List.map_cons, List.nodup_cons]
        refine ⟨?_, ihn⟩
        intro hmem
        rcases List.mem_map.mp hmem with ⟨b, hb, hbk⟩
        exact (ihm b hb).2.2 (by rw [hbk]; exact List.mem_cons_self _ _)
      · intro b hb
        rcases List.mem_cons.mp hb with hba | hbr
        · subst hba
          exact ⟨List.mem_cons_self _ _, hka, hks⟩
        · obtain ⟨hm, hk, hns⟩ := ihm b hbr
          exact ⟨List.mem_cons_of_mem _ hm, hk,
            fun hmem => hns (List.mem_cons_of_mem _ hmem)⟩
    · rw [hstep, if_neg hc]
      obtain ⟨ihn, ihm⟩ := ih seen
      refine ⟨ihn, fun b hb => ?_⟩
      obtain ⟨hm, hk, hns⟩ := ihm b hb
      exact ⟨List.mem_cons_of_mem _ hm, hk, hns⟩

theorem dedup_aliases_nodup (l : List String) :
    ((dedup_aliases l).map normKey).Nodup :=
  (dedupAux_spec l []).1

theorem mem_dedup_aliases {a : String} {l : List String} (h : a ∈ dedup_aliases l) :
    a ∈ l ∧ normKey a ≠ "" :=
  ⟨((dedupAux_spec l []).2 a h).1, ((dedupAux_spec l []).2 a h).2.1⟩

theorem appendUniqueStep_fst_grow (acc : List String × List String) (part : String) :
    acc.1 ⊆ (appendUniqueStep acc part).1 := by
  simp only [appendUniqueStep]
  split
  · exact fun x hx => List.mem_append_left _ hx
  · exact fun x hx => hx

/-- Every entry the append-unique fold emits was either already present,
or is a stripped string whose lowercase key missed the initial seen set. -/
theorem appendUnique_mem_snd (l : List String) : ∀ acc : List String × List String,
    ∀ a ∈ (l.foldl appendUniqueStep acc).2,
      a ∈ acc.2 ∨ (pyStrip a = a ∧ asciiLower a ∉ acc.1) := by
  induction l with
  | nil => intro acc a ha; exact Or.inl ha
  | cons part rest ih =>
    intro acc a ha
    rw [List.foldl_cons] at ha
    rcases ih (appendUniqueStep acc part) a ha with h | ⟨hfix, hnm⟩
    · simp only [appendUniqueStep] at h
      by_cases hc : (pyStrip part ≠ "" && !(acc.1.contains (asciiLower (pyStrip part)))) = true
      · rw [if_pos hc] at h
        rcases List.mem_append.mp h with h2 | h2
        · exact Or.inl h2
        · have ha2 : a = pyStrip part := by simpa using h2
          subst ha2
          refine Or.inr ⟨pyStrip_idem part, ?_⟩
          simp only [Bool.and_eq_true, Bool.not_eq_true'] at hc
          have := hc.2
          simpa using this
      · rw [if_neg hc] at h
        exact Or.inl h
    · exact Or.inr ⟨hfix, fun hmem => hnm (appendUniqueStep_fst_grow acc part hmem)⟩

theorem merge_aliases_eq (sbA la : List String) (cn nn : String) :
    merge_aliases sbA la cn nn =
      if sbA = [] then [] else
      (sbA.foldl appendUniqueStep
        ((let e0 := la.map normKey
          let e1 := if cn ≠ "" then e0 ++ [normKey cn] else e0
          if nn ≠ "" then e1 ++ [normKey nn] else e1), [])).2 := rfl

/-- `merge_aliases` never emits an alias whose normalised key equals the
new name's key (provided the new name is non-empty): the key sits in the
seed seen-set, and emitted entries are stripped with unseen keys. -/
theorem merge_aliases_excludes (sbA la : List String) (cn nn : String) (hnn : nn ≠ "") :
    ∀ a ∈ merge_aliases sbA la cn nn, normKey a ≠ normKey nn := by
  intro a ha hk
  rw [merge_aliases_eq] at ha
  by_cases hsb : sbA = []
  · rw [if_pos hsb] at ha; simp at ha
  · rw [if_neg hsb] at ha
    rcases appendUnique_mem_snd sbA _ a ha with h | ⟨hfix, hnm⟩
    · simp at h
    · apply hnm
      have hlk : asciiLower a = normKey a := by
        unfold normKey; rw [hfix]
      rw [hlk, hk]
      rw [if_pos hnn]
      exact List.mem_append_right _ (List.mem_singleton.mpr rfl)

theorem is_latin_strip_ne {s : String} (h : is_latin s = true) : pyStrip s ≠ "" := by
  simp only [is_latin, Bool.and_eq_true, ne_eq, decide_not, Bool.not_eq_true',
    decide_eq_false_iff_not] at h
  exact h.2.1

theorem candFold_nonempty (l : List String) : ∀ acc : List String × List String,
    (∀ t ∈ acc.1, t ≠ "") → ∀ t ∈ (l.foldl candStep acc).1, t ≠ "" := by
  induction l with
  | nil => intro acc h; exact h
  | cons al rest ih =>
    intro acc h
    refine ih _ ?_
    simp only [candStep]
    split
    · rename_i hc
      intro t ht
      rcases List.mem_append.mp ht with h1 | h1
      · exact h t h1
      · have ht2 : t = pyStrip al := by simpa using h1
        subst ht2
        simp only [Bool.and_eq_true] at hc
        simpa using hc.1.1
    · exact h

/-- Every candidate term produced by `process_performer`'s candidate
builder is a non-empty string. -/
theorem buildCandidates_nonempty (ja : List String) (jn cn : String) :
    ∀ t ∈ buildCandidates ja jn cn, t ≠ "" := by
  have hjav : ∀ t ∈ (javCands ja jn).1, t ≠ "" := by
    simp only [javCands]
    split
    · rename_i hc
      intro t ht
      rcases List.mem_append.mp ht with h1 | h1
      · exact candFold_nonempty ja ([], []) (by simp) t h1
      · have ht2 : t = pyStrip jn := by simpa using h1
        subst ht2
        simp only [Bool.and_eq_true] at hc
        exact is_latin_strip_ne hc.1.2
    · exact candFold_nonempty ja ([], []) (by simp)
  intro t ht
  simp only [buildCandidates] at ht
  split at ht
  · rename_i hc
    rcases List.mem_append.mp ht with h1 | h1
    · exact hjav t h1
    · have ht2 : t = pyStrip cn := by simpa using h1
      subst ht2
      simp only [Bool.and_eq_true] at hc
      exact is_latin_strip_ne hc.1.2
  · exact hjav t ht

/-- Field extraction and alias distinctness for a literally-shaped sync
payload. -/
theorem sync_payload_props (pid nn : String) (ua am : List String) (sids : List StashID)
    (enr urlsPart : Payload) (hnn : nn ≠ "")
    (hua : ∀ a ∈ ua, normKey a ≠ normKey nn)
    (ham : ∀ a ∈ am, normKey a ≠ normKey nn) :
    ∃ nn2 L,
      payloadGet ([("id", Val.vs pid), ("name", Val.vs nn),
          ("alias_list", Val.vls (dedup_aliases (ua ++ am))),
          ("stash_ids", Val.vsids sids)] ++ enr ++ urlsPart) "name" = some (.vs nn2) ∧
      payloadGet ([("id", Val.vs pid), ("name", Val.vs nn),
          ("alias_list", Val.vls (dedup_aliases (ua ++ am))),
          ("stash_ids", Val.vsids sids)] ++ enr ++ urlsPart) "alias_list" = some (.vls L) ∧
      nn2 ≠ "" ∧ (L.map normKey).Nodup ∧ ∀ a ∈ L, normKey a ≠ normKey nn2 := by
  refine ⟨nn, dedup_aliases (ua ++ am), rfl, rfl, hnn, dedup_aliases_nodup _, ?_⟩
  intro a ha
  rcases List.mem_append.mp (mem_dedup_aliases ha).1 with h | h
  · exact hua a h
  · exact ham a h


/-- Structure of the live-mode sync payload emitted by `process_performer`:
it always carries `name` and `alias_list` fields, the new name is
non-empty, the alias keys are pairwise distinct, and no alias key equals
the new name's key. -/
theorem sync_payload_aliases (p : Performer) (javBox : Box) (sbBox : Option Box)
    (reg : Registries) (u : Payload)
    (hu : process_performer p javBox sbBox reg false = .payload u) :
    ∃ nn L, payloadGet u "name" = some (.vs nn) ∧
      payloadGet u "alias_list" = some (.vls L) ∧ nn ≠ "" ∧
      (L.map normKey).Nodup ∧ ∀ a ∈ L, normKey a ≠ normKey nn := by
  rcases sbBox with _ | box
  · simp only [process_performer] at hu
    split at hu
    · exact SyncResult.noConfusion hu
    rename_i javSid hfind
    split at hu
    · exact SyncResult.noConfusion hu
    rename_i hsid
    split at hu
    · exact SyncResult.noConfusion hu
    rename_i hmany
    split at hu
    · exact SyncResult.noConfusion hu
    rename_i jp hjp
    split at hu
    · exact SyncResult.noConfusion hu
    rename_i best_latin rest heq
    have hbl : best_latin ≠ "" :=
      buildCandidates_nonempty _ _ _ best_latin (by rw [heq]; exact List.mem_cons_self _ _)
    rcases ite_eq_iff.mp hu with ⟨_, h2⟩ | ⟨_, h2⟩
    · exact SyncResult.noConfusion h2
    rw [if_neg Bool.false_ne_true] at h2
    cases h2
    refine sync_payload_props _ _ _ _ _ _ _ ?_ ?_ ?_
    · exact hbl
    · intro a ha
      exact of_decide_eq_true (List.mem_filter.mp ha).2
    · intro a ha
      exact absurd ha (List.not_mem_nil a)
  · simp only [process_performer] at hu
    split at hu
    · exact SyncResult.noConfusion hu
    rename_i javSid hfind
    split at hu
    · exact SyncResult.noConfusion hu
    rename_i hsid
    split at hu
    · exact SyncResult.noConfusion hu
    rename_i hmany
    split at hu
    · exact SyncResult.noConfusion hu
    rename_i jp hjp
    split at hu
    · exact SyncResult.noConfusion hu
    rename_i best_latin rest heq
    have hbl : best_latin ≠ "" :=
      buildCandidates_nonempty _ _ _ best_latin (by rw [heq]; exact List.mem_cons_self _ _)
    dsimp only at hu
    rcases hS1 : (searchLoopT reg.sbSearch (best_latin :: rest)).1.1 with _ | nm
    · rw [hS1] at hu
      dsimp only at hu
      rcases ite_eq_iff.mp hu with ⟨_, h2⟩ | ⟨_, h2⟩
      · exact SyncResult.noConfusion h2
      try rw [if_neg Bool.false_ne_true] at h2
      cases h2
      refine sync_payload_props _ _ _ _ _ _ _ ?_ ?_ ?_
      · exact hbl
      · intro a ha
        exact of_decide_eq_true (List.mem_filter.mp ha).2
      · intro a
        rcases hS2 : (searchLoopT reg.sbSearch (best_latin :: rest)).1.2 with _ | pid
        · intro ha
          exact absurd ha (List.not_mem_nil a)
        · dsimp only
          rcases hF : reg.sbFull pid with _ | f
          · intro ha
            exact absurd ha (List.not_mem_nil a)
          · intro ha
            exact merge_aliases_excludes _ _ _ _ hbl a ha
    · rw [hS1] at hu
      dsimp only at hu
      by_cases hnm : nm = ""
      · rw [if_neg (not_not_intro hnm)] at hu
        rcases ite_eq_iff.mp hu with ⟨_, h2⟩ | ⟨_, h2⟩
        · exact SyncResult.noConfusion h2
        try rw [if_neg Bool.false_ne_true] at h2
        cases h2
        refine sync_payload_props _ _ _ _ _ _ _ ?_ ?_ ?_
        · exact hbl
        · intro a ha
          exact of_decide_eq_true (List.mem_filter.mp ha).2
        · intro a
          rcases hS2 : (searchLoopT reg.sbSearch (best_latin :: rest)).1.2 with _ | pid
          · intro ha
            exact absurd ha (List.not_mem_nil a)
          · dsimp only
            rcases hF : reg.sbFull pid with _ | f
            · intro ha
              exact absurd ha (List.not_mem_nil a)
            · intro ha
              exact merge_aliases_excludes _ _ _ _ hbl a ha
      · rw [if_pos hnm] at hu
        rcases ite_eq_iff.mp hu with ⟨_, h2⟩ | ⟨_, h2⟩
        · exact SyncResult.noConfusion h2
        try rw [if_neg Bool.false_ne_true] at h2
        cases h2
        refine sync_payload_props _ _ _ _ _ _ _ ?_ ?_ ?_
        · exact hnm
        · intro a ha
          exact of_decide_eq_true (List.mem_filter.mp ha).2
        · intro a
          rcases hS2 : (searchLoopT reg.sbSearch (best_latin :: rest)).1.2 with _ | pid
          · intro ha
            exact absurd ha (List.not_mem_nil a)
          · dsimp only
            rcases hF : reg.sbFull pid with _ | f
            · intro ha
              exact absurd ha (List.not_mem_nil a)
            · intro ha
              exact merge_aliases_excludes _ _ _ _ hnm a ha


theorem merge_payload_aliases (keeper dupe : Performer) :
    ∃ M, payloadGet (_merge_performer_metadata keeper dupe).1 "alias_list" = some (.vls M) ∧
      (M.map normKey).Nodup := by
  refine ⟨_, rfl, ?_⟩
  exact dedup_aliases_nodup _

def c10p : Performer := { id := "p1", name := some "Akari",
                          stash_ids := [⟨"https://javstash.org/graphql", "j1"⟩] }
def c10jav : Box := { endpoint := "https://javstash.org/graphql", name := "JavStash" }
def c10reg : Registries :=
  { javFind := fun s => if s = "j1" then some ({ name := some "", aliases := ["Alice"] } : JavPerformer) else none,
    sbSearch := fun _ => [], sbFull := fun _ => none }

def c10u : Payload :=
  [("id", .vs "p1"), ("name", .vs "Alice"), ("alias_list", .vls ["Akari"]),
   ("stash_ids", .vsids [⟨"https://javstash.org/graphql", "j1"⟩])]

/-- C10 (confirmed): every update payload emitted by the engine carries an
alias list whose entries are pairwise distinct after trimming and
lowercasing — the per-record sync payload because it passes through
`dedup_aliases`, and the duplicate-merge payload likewise — and in the
per-record sync payload the new primary name never appears in the alias
list (not even up to trim/lowercase). -/
theorem C10_alias_distinctness (p : Performer) (javBox : Box) (sbBox : Option Box)
    (reg : Registries) (u : Payload)
    (hu : process_performer p javBox sbBox reg false = .payload u)
    (keeper dupe : Performer) :
    (∃ nn L, payloadGet u "name" = some (.vs nn) ∧
       payloadGet u "alias_list" = some (.vls L) ∧
       (L.map normKey).Nodup ∧ nn ∉ L ∧ ∀ a ∈ L, normKey a ≠ normKey nn) ∧
    (∃ M, payloadGet (_merge_performer_metadata keeper dupe).1 "alias_list" = some (.vls M) ∧
       (M.map normKey).Nodup) := by
  constructor
  · obtain ⟨nn, L, h1, h2, hnn, h3, h4⟩ := sync_payload_aliases p javBox sbBox reg u hu
    exact ⟨nn, L, h1, h2, h3, fun hmem => h4 nn hmem rfl, h4⟩
  · exact merge_payload_aliases keeper dupe

/-- Witness for `C10_alias_distinctness` at a concrete record
("Akari" renamed to JavStash alias "Alice"). -/
theorem C10_alias_distinctness_witness :
    (∃ nn L, payloadGet c10u "name" = some (.vs nn) ∧
       payloadGet c10u "alias_list" = some (.vls L) ∧
       (L.map normKey).Nodup ∧ nn ∉ L ∧ ∀ a ∈ L, normKey a ≠ normKey nn) ∧
    (∃ M, payloadGet (_merge_performer_metadata c10p c10p).1 "alias_list" = some (.vls M) ∧
       (M.map normKey).Nodup) :=
  C10_alias_distinctness c10p c10jav none c10reg c10u (by decide) c10p c10p


/-! ## C9: keeper selection and merge fill rules -/

theorem pickFold_first_argmax (ps : List Performer) : ∀ p r : Performer,
    r = ps.foldl
      (fun best x => if _count_filled_fields x > _count_filled_fields best then x else best) p →
    ∃ pre post, p :: ps = pre ++ r :: post ∧
      (∀ m ∈ pre, _count_filled_fields m < _count_filled_fields r) ∧
      ∀ m ∈ p :: ps, _count_filled_fields m ≤ _count_filled_fields r := by
  induction ps with
  | nil =>
    intro p r hr
    subst hr
    exact ⟨[], [], rfl, by simp, by simp⟩
  | cons x ps ih =>
    intro p r hr
    rw [List.foldl_cons] at hr
    by_cases hx : _count_filled_fields x > _count_filled_fields p
    · rw [if_pos hx] at hr
      obtain ⟨pre, post, hdec, hlt, hle⟩ := ih x r hr
      refine ⟨p :: pre, post, by rw [List.cons_append, ← hdec], ?_, ?_⟩
      · intro m hm
        rcases List.mem_cons.mp hm with rfl | hm2
        · exact lt_of_lt_of_le hx (hle x (List.mem_cons_self _ _))
        · exact hlt m hm2
      · intro m hm
        rcases List.mem_cons.mp hm with rfl | hm2
        · exact le_of_lt (lt_of_lt_of_le hx (hle x (List.mem_cons_self _ _)))
        · exact hle m hm2
    · rw [if_neg hx] at hr
      obtain ⟨pre, post, hdec, hlt, hle⟩ := ih p r hr
      have hxp : _count_filled_fields x ≤ _count_filled_fields p := Nat.le_of_not_lt hx
      have hpr : _count_filled_fields p ≤ _count_filled_fields r :=
        hle p (List.mem_cons_self _ _)
      rcases pre with _ | ⟨q, pre2⟩
      · simp only [List.nil_append] at hdec
        injection hdec with h1 h2
        refine ⟨[], x :: post, ?_, by simp, ?_⟩
        · rw [List.nil_append, ← h1, ← h2]
        · intro m hm
          rcases List.mem_cons.mp hm with rfl | hm2
          · exact hpr
          rcases List.mem_cons.mp hm2 with rfl | hm3
          · exact le_trans hxp hpr
          · exact hle m (List.mem_cons_of_mem _ hm3)
      · rw [List.cons_append] at hdec
        injection hdec with h1 h2
        refine ⟨p :: x :: pre2, post, ?_, ?_, ?_⟩
        · rw [List.cons_append, List.cons_append, ← h2]
        · intro m hm
          rcases List.mem_cons.mp hm with rfl | hm2
          · exact lt_of_le_of_lt (le_refl _) (h1 ▸ hlt q (List.mem_cons_self _ _))
          rcases List.mem_cons.mp hm2 with rfl | hm3
          · exact lt_of_le_of_lt hxp (h1 ▸ hlt q (List.mem_cons_self _ _))
          · exact hlt m (List.mem_cons_of_mem _ hm3)
        · intro m hm
          rcases List.mem_cons.mp hm with rfl | hm2
          · exact hpr
          rcases List.mem_cons.mp hm2 with rfl | hm3
          · exact le_trans hxp hpr
          · exact hle m (List.mem_cons_of_mem _ hm3)

theorem sidStep_fst_grow (acc : List (String × String) × List StashID) (s : StashID) :
    acc.1 ⊆ (sidStep acc s).1 ∧ sidKey s ∈ (sidStep acc s).1 := by
  simp only [sidStep]
  split
  · exact ⟨fun x hx => List.mem_append_left _ hx, List.mem_append_right _ (by simp)⟩
  · rename_i hc
    refine ⟨fun x hx => hx, ?_⟩
    simpa using hc

theorem sidFold_keys (l : List StashID) : ∀ acc,
    (∀ s ∈ l, sidKey s ∈ (l.foldl sidStep acc).1) ∧
    acc.1 ⊆ (l.foldl sidStep acc).1 := by
  induction l with
  | nil => intro acc; exact ⟨by simp, fun x hx => hx⟩
  | cons s rest ih =>
    intro acc
    rw [List.foldl_cons]
    obtain ⟨ih1, ih2⟩ := ih (sidStep acc s)
    obtain ⟨hgrow, hmem⟩ := sidStep_fst_grow acc s
    refine ⟨?_, fun x hx => ih2 (hgrow hx)⟩
    intro t ht
    rcases List.mem_cons.mp ht with rfl | ht2
    · exact ih2 hmem
    · exact ih1 t ht2

theorem sidFold_fst_eq (l : List StashID) : ∀ acc : List (String × String) × List StashID,
    acc.1 = acc.2.map sidKey → (l.foldl sidStep acc).1 = (l.foldl sidStep acc).2.map sidKey := by
  induction l with
  | nil => intro acc h; exact h
  | cons s rest ih =>
    intro acc h
    rw [List.foldl_cons]
    refine ih _ ?_
    simp only [sidStep]
    split
    · simp [h, sidKey]
    · exact h

/-- The merge payload's stash-id list covers every external-link key of
both the keeper and the absorbed record. -/
theorem merge_payload_sids (keeper dupe : Performer) :
    ∃ M, payloadGet (_merge_performer_metadata keeper dupe).1 "stash_ids" = some (.vsids M) ∧
      ∀ s ∈ keeper.stash_ids ++ dupe.stash_ids, sidKey s ∈ M.map sidKey := by
  refine ⟨_, rfl, ?_⟩
  intro s hs
  show sidKey s ∈
    (dupe.stash_ids.foldl sidStep (keeper.stash_ids.foldl sidStep ([], []))).2.map sidKey
  rw [← sidFold_fst_eq dupe.stash_ids _ (sidFold_fst_eq keeper.stash_ids ([], []) rfl)]
  rcases List.mem_append.mp hs with h | h
  · exact (sidFold_keys dupe.stash_ids _).2 ((sidFold_keys keeper.stash_ids ([], [])).1 s h)
  · exact (sidFold_keys dupe.stash_ids _).1 s h


set_option maxHeartbeats 2000000 in
/-- C9 (amended): the keeper is the FIRST group member attaining the
maximal completeness score (so selection is score-maximal and
deterministic in input order), and the merge payload fills each scalar
field exactly when it is empty on the keeper and populated on the
non-keeper — populated keeper fields are never overwritten — while every
external-link key of both records survives into the payload's stash-id
list.  (The claim's post-merge score dominance over every member is
refuted by `C9_counterexample`.) -/
theorem C9_keeper_amended (g : List Performer) (k : Performer)
    (h : _pick_keeper g = some k) (keeper dupe : Performer) :
    ((∃ pre post, g = pre ++ k :: post ∧
        ∀ m ∈ pre, _count_filled_fields m < _count_filled_fields k) ∧
      ∀ m ∈ g, _count_filled_fields m ≤ _count_filled_fields k) ∧
    (("disambiguation" ∈ payloadKeys (_merge_performer_metadata keeper dupe).1 ↔
        (isEmptyS keeper.disambiguation = true ∧ isEmptyS dupe.disambiguation = false)) ∧
      ("gender" ∈ payloadKeys (_merge_performer_metadata keeper dupe).1 ↔
        (isEmptyS keeper.gender = true ∧ isEmptyS dupe.gender = false)) ∧
      ("birthdate" ∈ payloadKeys (_merge_performer_metadata keeper dupe).1 ↔
        (isEmptyS keeper.birthdate = true ∧ isEmptyS dupe.birthdate = false)) ∧
      ("ethnicity" ∈ payloadKeys (_merge_performer_metadata keeper dupe).1 ↔
        (isEmptyS keeper.ethnicity = true ∧ isEmptyS dupe.ethnicity = false)) ∧
      ("country" ∈ payloadKeys (_merge_performer_metadata keeper dupe).1 ↔
        (isEmptyS keeper.country = true ∧ isEmptyS dupe.country = false)) ∧
      ("eye_color" ∈ payloadKeys (_merge_performer_metadata keeper dupe).1 ↔
        (isEmptyS keeper.eye_color = true ∧ isEmptyS dupe.eye_color = false)) ∧
      ("hair_color" ∈ payloadKeys (_merge_performer_metadata keeper dupe).1 ↔
        (isEmptyS keeper.hair_color = true ∧ isEmptyS dupe.hair_color = false)) ∧
      ("height_cm" ∈ payloadKeys (_merge_performer_metadata keeper dupe).1 ↔
        (isEmptyI keeper.height_cm = true ∧ isEmptyI dupe.height_cm = false)) ∧
      ("weight" ∈ payloadKeys (_merge_performer_metadata keeper dupe).1 ↔
        (isEmptyI keeper.weight = true ∧ isEmptyI dupe.weight = false)) ∧
      ("measurements" ∈ payloadKeys (_merge_performer_metadata keeper dupe).1 ↔
        (isEmptyS keeper.measurements = true ∧ isEmptyS dupe.measurements = false)) ∧
      ("fake_tits" ∈ payloadKeys (_merge_performer_metadata keeper dupe).1 ↔
        (isEmptyS keeper.fake_tits = true ∧ isEmptyS dupe.fake_tits = false)) ∧
      ("career_length" ∈ payloadKeys (_merge_performer_metadata keeper dupe).1 ↔
        (isEmptyS keeper.career_length = true ∧ isEmptyS dupe.career_length = false)) ∧
      ("details" ∈ payloadKeys (_merge_performer_metadata keeper dupe).1 ↔
        (isEmptyS keeper.details = true ∧ isEmptyS dupe.details = false)) ∧
      ("url" ∈ payloadKeys (_merge_performer_metadata keeper dupe).1 ↔
        (isEmptyS keeper.url = true ∧ isEmptyS dupe.url = false))) ∧
    (∃ M, payloadGet (_merge_performer_metadata keeper dupe).1 "stash_ids" = some (.vsids M) ∧
       ∀ s ∈ keeper.stash_ids ++ dupe.stash_ids, sidKey s ∈ M.map sidKey) := by
  refine ⟨?_, ?_, merge_payload_sids keeper dupe⟩
  · rcases g with _ | ⟨p, ps⟩
    · exact absurd h (by simp [_pick_keeper])
    · have h2 : k = ps.foldl
          (fun best x => if _count_filled_fields x > _count_filled_fields best then x else best)
          p := (Option.some.inj h).symm
      obtain ⟨pre, post, hdec, hlt, hle⟩ := pickFold_first_argmax ps p k h2
      exact ⟨⟨pre, post, hdec, hlt⟩, hle⟩
  · simp [_merge_performer_metadata, payloadKeys, mem_pif, mem_modMatch,
      Bool.and_eq_true, Bool.not_eq_true']

/-- Witness for `C9_keeper_amended` at the counterexample group. -/
theorem C9_keeper_amended_witness :
    ((∃ pre post, [c9keeper, c9dupe] = pre ++ c9keeper :: post ∧
        ∀ m ∈ pre, _count_filled_fields m < _count_filled_fields c9keeper) ∧
      ∀ m ∈ [c9keeper, c9dupe], _count_filled_fields m ≤ _count_filled_fields c9keeper) ∧
    (("disambiguation" ∈ payloadKeys (_merge_performer_metadata c9keeper c9dupe).1 ↔
        (isEmptyS c9keeper.disambiguation = true ∧ isEmptyS c9dupe.disambiguation = false)) ∧
      ("gender" ∈ payloadKeys (_merge_performer_metadata c9keeper c9dupe).1 ↔
        (isEmptyS c9keeper.gender = true ∧ isEmptyS c9dupe.gender = false)) ∧
      ("birthdate" ∈ payloadKeys (_merge_performer_metadata c9keeper c9dupe).1 ↔
        (isEmptyS c9keeper.birthdate = true ∧ isEmptyS c9dupe.birthdate = false)) ∧
      ("ethnicity" ∈ payloadKeys (_merge_performer_metadata c9keeper c9dupe).1 ↔
        (isEmptyS c9keeper.ethnicity = true ∧ isEmptyS c9dupe.ethnicity = false)) ∧
      ("country" ∈ payloadKeys (_merge_performer_metadata c9keeper c9dupe).1 ↔
        (isEmptyS c9keeper.country = true ∧ isEmptyS c9dupe.country = false)) ∧
      ("eye_color" ∈ payloadKeys (_merge_performer_metadata c9keeper c9dupe).1 ↔
        (isEmptyS c9keeper.eye_color = true ∧ isEmptyS c9dupe.eye_color = false)) ∧
      ("hair_color" ∈ payloadKeys (_merge_performer_metadata c9keeper c9dupe).1 ↔
        (isEmptyS c9keeper.hair_color = true ∧ isEmptyS c9dupe.hair_color = false)) ∧
      ("height_cm" ∈ payloadKeys (_merge_performer_metadata c9keeper c9dupe).1 ↔
        (isEmptyI c9keeper.height_cm = true ∧ isEmptyI c9dupe.height_cm = false)) ∧
      ("weight" ∈ payloadKeys (_merge_performer_metadata c9keeper c9dupe).1 ↔
        (isEmptyI c9keeper.weight = true ∧ isEmptyI c9dupe.weight = false)) ∧
      ("measurements" ∈ payloadKeys (_merge_performer_metadata c9keeper c9dupe).1 ↔
        (isEmptyS c9keeper.measurements = true ∧ isEmptyS c9dupe.measurements = false)) ∧
      ("fake_tits" ∈ payloadKeys (_merge_performer_metadata c9keeper c9dupe).1 ↔
        (isEmptyS c9keeper.fake_tits = true ∧ isEmptyS c9dupe.fake_tits = false)) ∧
      ("career_length" ∈ payloadKeys (_merge_performer_metadata c9keeper c9dupe).1 ↔
        (isEmptyS c9keeper.career_length = true ∧ isEmptyS c9dupe.career_length = false)) ∧
      ("details" ∈ payloadKeys (_merge_performer_metadata c9keeper c9dupe).1 ↔
        (isEmptyS c9keeper.details = true ∧ isEmptyS c9dupe.details = false)) ∧
      ("url" ∈ payloadKeys (_merge_performer_metadata c9keeper c9dupe).1 ↔
        (isEmptyS c9keeper.url = true ∧ isEmptyS c9dupe.url = false))) ∧
    (∃ M, payloadGet (_merge_performer_metadata c9keeper c9dupe).1 "stash_ids" = some (.vsids M) ∧
       ∀ s ∈ c9keeper.stash_ids ++ c9dupe.stash_ids, sidKey s ∈ M.map sidKey) :=
  C9_keeper_amended [c9keeper, c9dupe] c9keeper (by decide) c9keeper c9dupe


/-! ## C1: idempotence at the fixed point -/

theorem processGroup_merged_le (d : Bool) (ps : PassState) (g : List String) :
    ps.stats.duplicates_merged ≤ (processGroup d ps g).stats.duplicates_merged := by
  simp only [processGroup]
  split
  · exact le_refl _
  · exact Nat.le_add_right _ _

theorem mergeGroup_zero (mem : List Performer) (st : ServerState) (g : List String)
    (d : Bool) (hg : ¬ g.length < 2)
    (h : (_merge_duplicate_group mem st g d).2.2 = 0) :
    (_merge_duplicate_group mem st g d).1 = (mem, st) ∧
    absorbedIds (_merge_duplicate_group mem st g d).1.1 g = [] := by
  have hne : g.map (lookupP mem) ≠ [] := by
    intro hc
    rw [List.map_eq_nil_iff] at hc
    subst hc
    exact hg (by simp)
  obtain ⟨k, hk⟩ := Option.isSome_iff_exists.mp (pickKeeper_isSome hne)
  simp only [_merge_duplicate_group, if_neg hg, hk] at h ⊢
  have hd : g.filter (fun i => i ≠ k.id) = [] := List.length_eq_zero.mp h
  rw [hd]
  simp only [List.foldl_nil]
  refine ⟨by simp, ?_⟩
  unfold absorbedIds
  rw [hk]
  show g.filter (fun i => i ≠ k.id) = []
  exact hd

theorem processGroup_fix (d : Bool) (ps : PassState) (g : List String)
    (h : (processGroup d ps g).stats.duplicates_merged = ps.stats.duplicates_merged) :
    (processGroup d ps g).mem = ps.mem ∧ (processGroup d ps g).st = ps.st ∧
    (processGroup d ps g).deleted = ps.deleted := by
  by_cases hlen : (g.filter (fun i => !(ps.deleted.contains i))).length < 2
  · have he : processGroup d ps g = ps := by
      simp only [processGroup]
      rw [if_pos hlen]
    rw [he]
    exact ⟨rfl, rfl, rfl⟩
  · simp only [processGroup, if_neg hlen] at h ⊢
    have h0 : (_merge_duplicate_group ps.mem ps.st
        (g.filter (fun i => !(ps.deleted.contains i))) d).2.2 = 0 := by
      omega
    obtain ⟨hfix, habs⟩ := mergeGroup_zero _ _ _ _ hlen h0
    rw [habs]
    refine ⟨?_, ?_, by simp⟩
    · rw [hfix]
    · rw [hfix]

theorem foldl_stat_fix {γ : Type} (step : PassState → γ → PassState)
    (hle : ∀ ps b, ps.stats.duplicates_merged ≤ (step ps b).stats.duplicates_merged)
    (hfix : ∀ ps b, (step ps b).stats.duplicates_merged = ps.stats.duplicates_merged →
        (step ps b).mem = ps.mem ∧ (step ps b).st = ps.st ∧ (step ps b).deleted = ps.deleted)
    (l : List γ) : ∀ ps : PassState,
      ps.stats.duplicates_merged ≤ (l.foldl step ps).stats.duplicates_merged ∧
      ((l.foldl step ps).stats.duplicates_merged = ps.stats.duplicates_merged →
        (l.foldl step ps).mem = ps.mem ∧ (l.foldl step ps).st = ps.st ∧
        (l.foldl step ps).deleted = ps.deleted) := by
  induction l with
  | nil => intro ps; exact ⟨le_refl _, fun _ => ⟨rfl, rfl, rfl⟩⟩
  | cons b rest ih =>
    intro ps
    rw [List.foldl_cons]
    obtain ⟨ihle, ihfix⟩ := ih (step ps b)
    have hstep := hle ps b
    refine ⟨le_trans hstep ihle, fun heq => ?_⟩
    have hmid : (step ps b).stats.duplicates_merged = ps.stats.duplicates_merged := by
      omega
    obtain ⟨f1, f2, f3⟩ := ihfix (by rw [heq, hmid])
    obtain ⟨g1, g2, g3⟩ := hfix ps b hmid
    exact ⟨f1.trans g1, f2.trans g2, f3.trans g3⟩


/-- A dedup pass that merged nothing left the in-memory dicts, the server
state and the deleted set untouched. -/
theorem pass_fix (mem : List Performer) (st : ServerState) (d : Bool)
    (h : (find_and_merge_duplicates mem st d).stats.duplicates_merged = 0) :
    (find_and_merge_duplicates mem st d).mem = mem ∧
    (find_and_merge_duplicates mem st d).st = st ∧
    (find_and_merge_duplicates mem st d).deleted = [] := by
  have hfix1 := foldl_stat_fix (fun ps b => processGroup d ps b.2)
    (fun ps b => processGroup_merged_le d ps b.2)
    (fun ps b => processGroup_fix d ps b.2) (sidBuckets mem) ({ mem := mem, st := st, deleted := [], stats := {}, trace := [] } : PassState)
  have hfix2 := foldl_stat_fix (fun ps b => processGroup d ps b.2)
    (fun ps b => processGroup_merged_le d ps b.2)
    (fun ps b => processGroup_fix d ps b.2)
    (nameBuckets ((sidBuckets mem).foldl (fun ps b => processGroup d ps b.2) ({ mem := mem, st := st, deleted := [], stats := {}, trace := [] } : PassState)).mem ((sidBuckets mem).foldl (fun ps b => processGroup d ps b.2) ({ mem := mem, st := st, deleted := [], stats := {}, trace := [] } : PassState)).deleted) ((sidBuckets mem).foldl (fun ps b => processGroup d ps b.2) ({ mem := mem, st := st, deleted := [], stats := {}, trace := [] } : PassState))
  have hfix3 := foldl_stat_fix (fun ps pr => processGroup d ps [pr.1, pr.2])
    (fun ps pr => processGroup_merged_le d ps [pr.1, pr.2])
    (fun ps pr => processGroup_fix d ps [pr.1, pr.2])
    (aliasPairs (((nameBuckets ((sidBuckets mem).foldl (fun ps b => processGroup d ps b.2) ({ mem := mem, st := st, deleted := [], stats := {}, trace := [] } : PassState)).mem ((sidBuckets mem).foldl (fun ps b => processGroup d ps b.2) ({ mem := mem, st := st, deleted := [], stats := {}, trace := [] } : PassState)).deleted).foldl (fun ps b => processGroup d ps b.2) ((sidBuckets mem).foldl (fun ps b => processGroup d ps b.2) ({ mem := mem, st := st, deleted := [], stats := {}, trace := [] } : PassState))).mem.filter (fun p => !(((nameBuckets ((sidBuckets mem).foldl (fun ps b => processGroup d ps b.2) ({ mem := mem, st := st, deleted := [], stats := {}, trace := [] } : PassState)).mem ((sidBuckets mem).foldl (fun ps b => processGroup d ps b.2) ({ mem := mem, st := st, deleted := [], stats := {}, trace := [] } : PassState)).deleted).foldl (fun ps b => processGroup d ps b.2) ((sidBuckets mem).foldl (fun ps b => processGroup d ps b.2) ({ mem := mem, st := st, deleted := [], stats := {}, trace := [] } : PassState))).deleted.contains p.id))) (nameIndex (((nameBuckets ((sidBuckets mem).foldl (fun ps b => processGroup d ps b.2) ({ mem := mem, st := st, deleted := [], stats := {}, trace := [] } : PassState)).mem ((sidBuckets mem).foldl (fun ps b => processGroup d ps b.2) ({ mem := mem, st := st, deleted := [], stats := {}, trace := [] } : PassState)).deleted).foldl (fun ps b => processGroup d ps b.2) ((sidBuckets mem).foldl (fun ps b => processGroup d ps b.2) ({ mem := mem, st := st, deleted := [], stats := {}, trace := [] } : PassState))).mem.filter (fun p => !(((nameBuckets ((sidBuckets mem).foldl (fun ps b => processGroup d ps b.2) ({ mem := mem, st := st, deleted := [], stats := {}, trace := [] } : PassState)).mem ((sidBuckets mem).foldl (fun ps b => processGroup d ps b.2) ({ mem := mem, st := st, deleted := [], stats := {}, trace := [] } : PassState)).deleted).foldl (fun ps b => processGroup d ps b.2) ((sidBuckets mem).foldl (fun ps b => processGroup d ps b.2) ({ mem := mem, st := st, deleted := [], stats := {}, trace := [] } : PassState))).deleted.contains p.id))))) ((nameBuckets ((sidBuckets mem).foldl (fun ps b => processGroup d ps b.2) ({ mem := mem, st := st, deleted := [], stats := {}, trace := [] } : PassState)).mem ((sidBuckets mem).foldl (fun ps b => processGroup d ps b.2) ({ mem := mem, st := st, deleted := [], stats := {}, trace := [] } : PassState)).deleted).foldl (fun ps b => processGroup d ps b.2) ((sidBuckets mem).foldl (fun ps b => processGroup d ps b.2) ({ mem := mem, st := st, deleted := [], stats := {}, trace := [] } : PassState)))
  have h3 : (((aliasPairs (((nameBuckets ((sidBuckets mem).foldl (fun ps b => processGroup d ps b.2) ({ mem := mem, st := st, deleted := [], stats := {}, trace := [] } : PassState)).mem ((sidBuckets mem).foldl (fun ps b => processGroup d ps b.2) ({ mem := mem, st := st, deleted := [], stats := {}, trace := [] } : PassState)).deleted).foldl (fun ps b => processGroup d ps b.2) ((sidBuckets mem).foldl (fun ps b => processGroup d ps b.2) ({ mem := mem, st := st, deleted := [], stats := {}, trace := [] } : PassState))).mem.filter (fun p => !(((nameBuckets ((sidBuckets mem).foldl (fun ps b => processGroup d ps b.2) ({ mem := mem, st := st, deleted := [], stats := {}, trace := [] } : PassState)).mem ((sidBuckets mem).foldl (fun ps b => processGroup d ps b.2) ({ mem := mem, st := st, deleted := [], stats := {}, trace := [] } : PassState)).deleted).foldl (fun ps b => processGroup d ps b.2) ((sidBuckets mem).foldl (fun ps b => processGroup d ps b.2) ({ mem := mem, st := st, deleted := [], stats := {}, trace := [] } : PassState))).deleted.contains p.id))) (nameIndex (((nameBuckets ((sidBuckets mem).foldl (fun ps b => processGroup d ps b.2) ({ mem := mem, st := st, deleted := [], stats := {}, trace := [] } : PassState)).mem ((sidBuckets mem).foldl (fun ps b => processGroup d ps b.2) ({ mem := mem, st := st, deleted := [], stats := {}, trace := [] } : PassState)).deleted).foldl (fun ps b => processGroup d ps b.2) ((sidBuckets mem).foldl (fun ps b => processGroup d ps b.2) ({ mem := mem, st := st, deleted := [], stats := {}, trace := [] } : PassState))).mem.filter (fun p => !(((nameBuckets ((sidBuckets mem).foldl (fun ps b => processGroup d ps b.2) ({ mem := mem, st := st, deleted := [], stats := {}, trace := [] } : PassState)).mem ((sidBuckets mem).foldl (fun ps b => processGroup d ps b.2) ({ mem := mem, st := st, deleted := [], stats := {}, trace := [] } : PassState)).deleted).foldl (fun ps b => processGroup d ps b.2) ((sidBuckets mem).foldl (fun ps b => processGroup d ps b.2) ({ mem := mem, st := st, deleted := [], stats := {}, trace := [] } : PassState))).deleted.contains p.id))))).foldl (fun ps pr => processGroup d ps [pr.1, pr.2]) ((nameBuckets ((sidBuckets mem).foldl (fun ps b => processGroup d ps b.2) ({ mem := mem, st := st, deleted := [], stats := {}, trace := [] } : PassState)).mem ((sidBuckets mem).foldl (fun ps b => processGroup d ps b.2) ({ mem := mem, st := st, deleted := [], stats := {}, trace := [] } : PassState)).deleted).foldl (fun ps b => processGroup d ps b.2) ((sidBuckets mem).foldl (fun ps b => processGroup d ps b.2) ({ mem := mem, st := st, deleted := [], stats := {}, trace := [] } : PassState))))).stats.duplicates_merged = 0 := h
  have h2 : (((nameBuckets ((sidBuckets mem).foldl (fun ps b => processGroup d ps b.2) ({ mem := mem, st := st, deleted := [], stats := {}, trace := [] } : PassState)).mem ((sidBuckets mem).foldl (fun ps b => processGroup d ps b.2) ({ mem := mem, st := st, deleted := [], stats := {}, trace := [] } : PassState)).deleted).foldl (fun ps b => processGroup d ps b.2) ((sidBuckets mem).foldl (fun ps b => processGroup d ps b.2) ({ mem := mem, st := st, deleted := [], stats := {}, trace := [] } : PassState)))).stats.duplicates_merged = 0 := Nat.le_zero.mp (le_trans hfix3.1 (le_of_eq h3))
  have h1 : (((sidBuckets mem).foldl (fun ps b => processGroup d ps b.2) ({ mem := mem, st := st, deleted := [], stats := {}, trace := [] } : PassState))).stats.duplicates_merged = 0 := Nat.le_zero.mp (le_trans hfix2.1 (le_of_eq h2))
  obtain ⟨e3m, e3s, e3d⟩ := hfix3.2 (h3.trans h2.symm)
  obtain ⟨e2m, e2s, e2d⟩ := hfix2.2 (h2.trans h1.symm)
  obtain ⟨e1m, e1s, e1d⟩ := hfix1.2 h1
  exact ⟨(e3m.trans e2m).trans e1m, (e3s.trans e2s).trans e1s, (e3d.trans e2d).trans e1d⟩


theorem syncStep_fix (javBox : Box) (sbBox : Option Box) (reg : Registries) (d : Bool)
    (acc : ServerState × RunStats) (q : Performer) :
    acc.2.updated ≤ (syncStep javBox sbBox reg d acc q).2.updated ∧
    ((syncStep javBox sbBox reg d acc q).2.updated = acc.2.updated →
      (syncStep javBox sbBox reg d acc q).1 = acc.1) := by
  simp only [syncStep]
  rcases hr : process_performer q javBox sbBox reg d with u | _ | _ | _ | _ | _ | _
  · exact ⟨Nat.le_succ _, fun hh => absurd hh (Nat.succ_ne_self _)⟩
  · exact ⟨Nat.le_succ _, fun hh => rfl⟩
  · exact ⟨le_refl _, fun hh => rfl⟩
  · exact ⟨le_refl _, fun hh => rfl⟩
  · exact ⟨le_refl _, fun hh => rfl⟩
  · exact ⟨le_refl _, fun hh => rfl⟩
  · exact ⟨le_refl _, fun hh => rfl⟩

theorem syncFold_fix (javBox : Box) (sbBox : Option Box) (reg : Registries) (d : Bool)
    (l : List Performer) : ∀ acc : ServerState × RunStats,
    acc.2.updated ≤ (l.foldl (syncStep javBox sbBox reg d) acc).2.updated ∧
    ((l.foldl (syncStep javBox sbBox reg d) acc).2.updated = acc.2.updated →
      (l.foldl (syncStep javBox sbBox reg d) acc).1 = acc.1) := by
  induction l with
  | nil => intro acc; exact ⟨le_refl _, fun _ => rfl⟩
  | cons q rest ih =>
    intro acc
    rw [List.foldl_cons]
    obtain ⟨ihle, ihfix⟩ := ih (syncStep javBox sbBox reg d acc q)
    obtain ⟨hle, hfx⟩ := syncStep_fix javBox sbBox reg d acc q
    refine ⟨le_trans hle ihle, fun heq => ?_⟩
    have hmid : (syncStep javBox sbBox reg d acc q).2.updated = acc.2.updated := by
      omega
    exact (ihfix (hmid ▸ heq)).trans (hfx hmid)


/-- C1 (amended): the pipeline is idempotent exactly at its fixed points.
If a live run performed zero duplicate merges (both passes) and zero
record updates, it left the catalog state untouched, and a second run on
its output repeats it verbatim: zero updates and zero merges again.  (A
run that DID merge can leave fresh alias/name collisions behind, so the
unconditional two-run claim is refuted by `C1_counterexample`.) -/
theorem C1_idempotent_amended (cfg : List Box) (reg : Registries) (st : ServerState)
    (h1 : (process cfg reg st false).preStats.duplicates_merged = 0)
    (h2 : (process cfg reg st false).syncStats.updated = 0)
    (h3 : (process cfg reg st false).postStats.duplicates_merged = 0) :
    (process cfg reg st false).state = st ∧
    process cfg reg (process cfg reg st false).state false = process cfg reg st false ∧
    (process cfg reg (process cfg reg st false).state false).syncStats.updated = 0 ∧
    (process cfg reg (process cfg reg st false).state false).preStats.duplicates_merged = 0 ∧
    (process cfg reg (process cfg reg st false).state false).postStats.duplicates_merged = 0 := by
  have hstate : (process cfg reg st false).state = st := by
    rcases hbox : (identify_stashboxes cfg).1 with _ | javBox
    · simp only [process, hbox]
    · simp only [process, hbox] at h1 h2 h3 ⊢
      obtain ⟨hm, hs, hd⟩ := pass_fix st.performers st false h1
      rw [hm, hs, hd] at h2 h3 ⊢
      have hsy := (syncFold_fix javBox ((identify_stashboxes cfg).2) reg false _ (st, {})).2 h2
      rw [hsy] at h3 ⊢
      dsimp only at h3 ⊢
      exact (pass_fix st.performers st false h3).2.1
  refine ⟨hstate, ?_, ?_, ?_, ?_⟩
  · rw [hstate]
  · rw [hstate]
    exact h2
  · rw [hstate]
    exact h1
  · rw [hstate]
    exact h3

def c1zstate : ServerState := { performers := [{ id := "Z", name := some "z" }] }

/-- Witness for `C1_idempotent_amended`: a one-record catalog with no
JavStash link is a fixed point. -/
theorem C1_idempotent_amended_witness :
    (process c1cfg c1reg c1zstate false).state = c1zstate ∧
    process c1cfg c1reg (process c1cfg c1reg c1zstate false).state false =
      process c1cfg c1reg c1zstate false ∧
    (process c1cfg c1reg (process c1cfg c1reg c1zstate false).state false).syncStats.updated = 0 ∧
    (process c1cfg c1reg (process c1cfg c1reg c1zstate false).state
      false).preStats.duplicates_merged = 0 ∧
    (process c1cfg c1reg (process c1cfg c1reg c1zstate false).state
      false).postStats.duplicates_merged = 0 :=
  C1_idempotent_amended c1cfg c1reg c1zstate (by decide) (by decide) (by decide)

end PNS
